import Mathlib

/-!
Verification development for the OPL (Optimization Programming Language)
data-exchange pipeline: grid-identifier parsing and Moore-neighborhood
adjacency (`utils.py`), per-origin breadth-first distance computation
(`utils.py`), the OPL text encoders (`opl_data_generator.py`) and the
OPL text decoders (`opl_parser.py`).

Python strings are modelled as `List Char`; Python `dict`s as association
lists; Python functions that can raise are modelled with `Option` or an
explicit outcome type.  All definitions are executable and structurally
recursive so that concrete runs evaluate inside the kernel.
-/

set_option maxRecDepth 20000

/-- Python text, modelled as a list of characters. -/
abbrev PyStr := List Char

/-- The characters Python's `\s` (and `str.split()` / `str.strip()`)
treats as whitespace, restricted to ASCII. -/
def isPySpace (c : Char) : Bool :=
  c = ' ' || c = '\t' || c = '\n' || c = '\r' || c = '\x0b' || c = '\x0c'

/-- ASCII decimal digit test (Python's `\d` on ASCII input). -/
def isDigitCh (c : Char) : Bool :=
  '0' ≤ c && c ≤ '9'

/-- The decimal digit character for `n < 10`. -/
def digitCh (n : Nat) : Char :=
  Char.ofNat (48 + n)

/-- Decimal rendering of a natural number, fuelled so that the
definition is structurally recursive (fuel `n + 1` always suffices). -/
def natCharsAux : Nat → Nat → List Char
  | 0, _ => []
  | fuel + 1, n =>
    if n < 10 then [digitCh n]
    else natCharsAux fuel (n / 10) ++ [digitCh (n % 10)]

/-- Decimal rendering of a natural number (Python `str` on a
non-negative `int`). -/
def natChars (n : Nat) : List Char :=
  natCharsAux (n + 1) n

/-- Rendering of a Python `int` (possibly negative). -/
def intChars (i : Int) : List Char :=
  if i < 0 then '-' :: natChars i.natAbs else natChars i.natAbs

/-- Numeric value of a list of decimal digit characters. -/
def natVal (s : List Char) : Nat :=
  s.foldl (fun acc c => acc * 10 + (c.toNat - 48)) 0

/-- Python `int(token)` on a plain (sign + digits) integer literal:
`none` models the `ValueError` raised on any other input. -/
def pyInt (s : List Char) : Option Int :=
  match s with
  | '-' :: rest =>
    if rest ≠ [] && rest.all isDigitCh then some (-(natVal rest : Int)) else none
  | _ =>
    if s ≠ [] && s.all isDigitCh then some (natVal s : Int) else none

/-- Python `str.split('_')`: split on every underscore, keeping empty
fields. -/
def splitUnderscore : List Char → List (List Char)
  | [] => [[]]
  | c :: rest =>
    if c = '_' then [] :: splitUnderscore rest
    else
      match splitUnderscore rest with
      | [] => [[c]]
      | f :: fs => (c :: f) :: fs

/-- Python `str.split()` (no argument): maximal runs of
non-whitespace characters. -/
def splitWsAux (cur : List Char) : List Char → List (List Char)
  | [] => if cur = [] then [] else [cur.reverse]
  | c :: rest =>
    if isPySpace c then
      if cur = [] then splitWsAux [] rest
      else cur.reverse :: splitWsAux [] rest
    else splitWsAux (c :: cur) rest

/-- Python `str.split()` on a `PyStr`. -/
def splitWs (s : PyStr) : List PyStr :=
  splitWsAux [] s

/-- Strip leading whitespace. -/
def dropWs (s : PyStr) : PyStr :=
  s.dropWhile (fun c => isPySpace c)

/-- Strip whitespace on both ends (the `\s*(.*?)\s*` trimming done by
the set-declaration regex). -/
def trimWs (s : PyStr) : PyStr :=
  (dropWs ((dropWs s).reverse)).reverse

/- ## Grid identifiers and Moore neighborhoods (`utils.py`) -/

/-- The identifier string `f"cell_{c}_{r}"` built by `get_neighbors`. -/
def formatGridId (c r : Int) : PyStr :=
  ['c', 'e', 'l', 'l', '_'] ++ intChars c ++ '_' :: intChars r

/-- The first line of `get_neighbors`:
`col, row = map(int, grid_id.split('_')[1:])`.
Returns `some (col, row)` when the identifier has exactly two
integer fields after its first underscore-separated component;
`none` models the `ValueError` raised otherwise.  Note the component
before the first underscore is never inspected. -/
def parseGridId (s : PyStr) : Option (Int × Int) :=
  match (splitUnderscore s).drop 1 with
  | [a, b] =>
    match pyInt a, pyInt b with
    | some c, some r => some (c, r)
    | _, _ => none
  | _ => none

/-- The eight Moore offsets of `get_neighbors`, as `(row, col)` pairs in
the source's fixed order: up, down, left, right, up-left, down-right,
left-down, right-up. -/
def mooreCoords (row col : Int) : List (Int × Int) :=
  [(row - 1, col), (row + 1, col), (row, col - 1), (row, col + 1),
   (row - 1, col - 1), (row + 1, col + 1), (row + 1, col - 1), (row - 1, col + 1)]

/-- The membership-filtered accumulation loop of `get_neighbors`. -/
def neighborLoop : List (Int × Int) → List PyStr → List PyStr
  | [], _ => []
  | (r, c) :: rest, ids =>
    let nid := formatGridId c r
    if ids.contains nid then nid :: neighborLoop rest ids
    else neighborLoop rest ids

/-- `get_neighbors(grid_id, all_grid_ids)` from `utils.py`: parse the
identifier, enumerate the eight Moore candidates in the fixed order and
keep those present in `all_grid_ids`.  `none` models the exception
raised when the identifier does not parse. -/
def get_neighbors (gridId : PyStr) (allGridIds : List PyStr) : Option (List PyStr) :=
  match parseGridId gridId with
  | none => none
  | some (col, row) => some (neighborLoop (mooreCoords row col) allGridIds)

/-- Modelled from the spec: the `cell_<int>_<int>` identifier pattern of
§3/§4.1 (the code itself never checks the `cell` prefix, which is what
claim C9 is about). -/
def matchesCellPattern (s : PyStr) : Bool :=
  match splitUnderscore s with
  | [p, a, b] => p = ['c', 'e', 'l', 'l'] && (pyInt a).isSome && (pyInt b).isSome
  | _ => false

/- ## Multi-source BFS distance engine (`add_species_distance_column`, `utils.py`) -/

/-- The inner neighbor loop of the BFS in `add_species_distance_column`:
each unvisited neighbor is marked visited and appended (FIFO) to the
queue with distance `d`. -/
def enqueueNbrs (d : Nat) : List PyStr → List (PyStr × Nat) → List PyStr →
    List (PyStr × Nat) × List PyStr
  | [], queue, visited => (queue, visited)
  | w :: ws, queue, visited =>
    if visited.contains w then enqueueNbrs d ws queue visited
    else enqueueNbrs d ws (queue ++ [(w, d)]) (w :: visited)

/-- The cells newly marked visited by `enqueueNbrs` (in processing
order). -/
def newCells : List PyStr → List PyStr → List PyStr
  | [], _ => []
  | w :: ws, visited =>
    if visited.contains w then newCells ws visited
    else w :: newCells ws (w :: visited)

/-- One `while queue:` loop of the BFS, fuelled.  The popped cell's
distance is recorded (assoc-list cons = the dict/array write), then its
neighbors are enqueued. -/
def bfsAux (adj : PyStr → List PyStr) :
    Nat → List (PyStr × Nat) → List PyStr → List (PyStr × Nat) → List (PyStr × Nat)
  | 0, _, _, dist => dist
  | _ + 1, [], _, dist => dist
  | fuel + 1, (u, d) :: rest, visited, dist =>
    let qv := enqueueNbrs (d + 1) (adj u) rest visited
    bfsAux adj fuel qv.1 qv.2 ((u, d) :: dist)

/-- The BFS of `add_species_distance_column` from a single origin:
`queue = deque([(source, 0)]); visited = {source}`.  The result is the
distance assignment (an association list, newest write first).  The
source loops until the queue is empty; any `fuel` at least the total
number of enqueues gives the final state, and every theorem below is
proved for all fuels. -/
def bfs (adj : PyStr → List PyStr) (source : PyStr) (fuel : Nat) : List (PyStr × Nat) :=
  bfsAux adj fuel [(source, 0)] [source] []

/-- The adjacency actually used by the BFS: the precomputed `neighbors`
column, i.e. `get_neighbors` over the dataset's id set (the dataset
build aborts earlier if some id fails to parse, hence the `[]`
default never fires on pipeline inputs). -/
def adjOf (ids : List PyStr) (s : PyStr) : List PyStr :=
  (get_neighbors s ids).getD []

/-- One cell's `{species}_distances` entry list as produced by
`add_species_distance_column`: the column is initialised to
`[0, 0, ...]` (one slot per origin) and BFS run `i` overwrites slot `i`
of every cell it reaches — so the final slot `i` is the BFS distance
when reached and the initial `0` otherwise. -/
def speciesDistanceColumn (ids origins : List PyStr) (fuel : Nat) (cell : PyStr) :
    List Nat :=
  (List.range origins.length).map fun i =>
    ((bfs (adjOf ids) (origins.getD i []) fuel).lookup cell).getD 0

/- ## OPL encoders (`opl_data_generator.py`) -/

/-- Python `', '.join(...)`-style separator join. -/
def joinSep (sep : PyStr) : List PyStr → PyStr
  | [] => []
  | [x] => x
  | x :: y :: rest => x ++ sep ++ joinSep sep (y :: rest)

/-- Fractional decimal digits of `r / d` (with `r < d`) by long
division, fuelled; mirrors the decimal expansion Python prints for
floats that hold exact decimal values. -/
def fracDigitsAux : Nat → Nat → Nat → List Char
  | 0, _, _ => []
  | fuel + 1, r, d =>
    if r = 0 then []
    else digitCh (r * 10 / d) :: fracDigitsAux fuel (r * 10 % d) d

/-- Python `f'{val}'` for a non-negative float with numerator `n` and
denominator `d`: integer part, `'.'`, then at least one fractional
digit. -/
def renderQNonneg (n d : Nat) : PyStr :=
  natChars (n / d) ++ '.' ::
    (if n % d = 0 then ['0'] else fracDigitsAux 30 (n % d) d)

/-- Python `f'{val}'` for a float holding an exact decimal value. -/
def renderQ (q : ℚ) : PyStr :=
  if q.num < 0 then '-' :: renderQNonneg q.num.natAbs q.den
  else renderQNonneg q.num.natAbs q.den

/-- `write_opl_set`: `Name = {\n  "item1",\n  "item2",\n};\n\n`. -/
def write_opl_set (name : PyStr) (array : List PyStr) : PyStr :=
  name ++ (" = \x7b\n".data) ++
    (array.map fun item => ("  \"".data) ++ item ++ ("\",\n".data)).flatten ++
    ("\x7d;\n\n".data)

/-- `write_opl_map_of_list`: one brace-delimited quoted set per key. -/
def write_opl_map_of_list (name : PyStr) (mapOfLists : List (PyStr × List PyStr)) :
    PyStr :=
  name ++ (" = [\n".data) ++
    (mapOfLists.map fun kv =>
      ('{' :: joinSep (", ".data) (kv.2.map fun e => '"' :: e ++ ['"']) ++ ("\x7d,\n".data))).flatten ++
    ("];\n\n".data)

/-- `write_opl_map_of_numbers`: one `val,\n` line per key. -/
def write_opl_map_of_numbers (name : PyStr) (mapOfNums : List (PyStr × ℚ)) : PyStr :=
  name ++ (" = [\n".data) ++
    (mapOfNums.map fun kv => renderQ kv.2 ++ (",\n".data)).flatten ++
    ("];\n\n".data)

/-- `data.get(r, {}).get(c, 0.0)` of `write_opl_2d_float_array`. -/
def entryVal (data : List (PyStr × List (PyStr × ℚ))) (r c : PyStr) : ℚ :=
  (((data.lookup r).getD []).lookup c).getD 0

/-- The numeric matrix `write_opl_2d_float_array` renders: row keys in
`rows` order, column keys in `cols` order, missing entries `0.0`. -/
def matrixValues (data : List (PyStr × List (PyStr × ℚ))) (rows cols : List PyStr) :
    List (List ℚ) :=
  rows.map fun r => cols.map fun c => entryVal data r c

/-- `write_opl_2d_float_array`: each row is
`  [v1, v2, ...],\n` with comma-separated float renderings. -/
def write_opl_2d_float_array (name : PyStr) (data : List (PyStr × List (PyStr × ℚ)))
    (rows cols : List PyStr) : PyStr :=
  name ++ (" = [\n".data) ++
    (rows.map fun r =>
      ("  [".data) ++ joinSep (", ".data) (cols.map fun c => renderQ (entryVal data r c)) ++
        ("],\n".data)).flatten ++
    ("];\n\n".data)

/-- The sort key order of
`sorted(range(len(dist_list)), key=lambda i: dist_list[i])`:
Python's sort is stable, and a stable sort of distinct indices by value
is exactly the lexicographic (value, index) order, which is what this
relation states directly. -/
def lexKeyRel (l : List Nat) (i j : Nat) : Prop :=
  l.getD i 0 < l.getD j 0 ∨ (l.getD i 0 = l.getD j 0 ∧ i ≤ j)

instance (l : List Nat) : DecidableRel (lexKeyRel l) := fun i j => by
  unfold lexKeyRel; infer_instance

/-- `sorted(range(len(dist_list)), key=...)[:n_closest]` — the kept
origin indices of `write_species_distances`. -/
def keepIdx (l : List Nat) (nClosest : Nat) : List Nat :=
  ((List.range l.length).insertionSort (lexKeyRel l)).take nClosest

/-- One padded row of `write_species_distances`: position `idx` carries
the true distance when `idx < len(dist_list)` and `idx` was kept,
otherwise the padding sentinel; the row always has the global maximum
length. -/
def truncatedRow (l : List Nat) (nClosest maxLength padding : Nat) : List Nat :=
  (List.range maxLength).map fun idx =>
    if idx < l.length && (keepIdx l nClosest).contains idx then l.getD idx 0
    else padding

/-- The `max_length` scan of `write_species_distances`: the maximum
distance-list length over every (species, cell) pair. -/
def globalMaxLen (data : List (PyStr × List (PyStr × List Nat))) : Nat :=
  data.foldl (fun m sd => sd.2.foldl (fun m2 cl => max m2 cl.2.length) m) 0

/-- The numeric content of the 3-D block `write_species_distances`
emits: per species, per cell, the padded truncated row. -/
def write_species_distances_rows (data : List (PyStr × List (PyStr × List Nat)))
    (nClosest padding : Nat) : List (PyStr × List (PyStr × List Nat)) :=
  data.map fun sd =>
    (sd.1, sd.2.map fun cl => (cl.1, truncatedRow cl.2 nClosest (globalMaxLen data) padding))

/-- The text `write_species_distances` writes with the default
`padding_value=1e6`: distances are Python `int`s and print as digits,
the padding is the float `1e6` and prints as `1000000.0`. -/
def write_species_distances (data : List (PyStr × List (PyStr × List Nat)))
    (nClosest : Nat) : PyStr :=
  let M := globalMaxLen data
  ("SpeciesDistances = [\n".data) ++
    (data.map fun sd =>
      ("[\n".data) ++
        (sd.2.map fun cl =>
          '[' :: joinSep (", ".data)
              ((List.range M).map fun idx =>
                if idx < cl.2.length && (keepIdx cl.2 nClosest).contains idx then
                  natChars (cl.2.getD idx 0)
                else ("1000000.0".data)) ++
            ("],\n".data)).flatten ++
        ("],\n".data)).flatten ++
    ("];\n\n".data)

/-- The Model Document fed to `generate_opl_dat_file`. -/
structure ModelData where
  cells : List PyStr
  actions : List PyStr
  species : List PyStr
  connections : List PyStr
  costs : List (PyStr × List (PyStr × ℚ))
  suitability : List (PyStr × List (PyStr × ℚ))
  neighbors : List (PyStr × List PyStr)
  speciesDistances : List (PyStr × List (PyStr × List Nat))
  area : List (PyStr × ℚ)

/-- `generate_opl_dat_file`: the full `.dat` text, written as the
concatenation of the individual writers in source order. -/
def generate_opl_dat_file (d : ModelData) (nClosest : Nat) : PyStr :=
  write_opl_set ("Cells".data) d.cells ++
  write_opl_set ("Actions".data) d.actions ++
  write_opl_set ("Species".data) d.species ++
  write_opl_set ("Connections".data) d.connections ++
  write_opl_2d_float_array ("Costs".data) d.costs d.cells d.actions ++
  write_opl_2d_float_array ("SuitabilityScores".data) d.suitability d.cells d.actions ++
  write_opl_map_of_list ("Neighbors".data) d.neighbors ++
  write_species_distances d.speciesDistances nClosest ++
  write_opl_map_of_numbers ("Area".data) d.area

/- ## OPL decoders (`opl_parser.py`) -/

/-- Attempt of the regex prefix `name\s*=\s*<open>` anchored at the
start of `s` (`\s*` never backtracks usefully here because `=` and the
open bracket are not whitespace): returns the text after the opening
bracket. -/
def headerAt (name : PyStr) (opn : Char) (s : PyStr) : Option PyStr :=
  if name.isPrefixOf s then
    match dropWs (s.drop name.length) with
    | '=' :: rest =>
      match dropWs rest with
      | c :: rest2 => if c = opn then some rest2 else none
      | [] => none
    | _ => none
  else none

/-- `re.search` scanning for the leftmost match of
`name\s*=\s*<open>`: try every suffix left to right. -/
def findHeader (name : PyStr) (opn : Char) : PyStr → Option PyStr
  | [] => headerAt name opn []
  | c :: rest =>
    match headerAt name opn (c :: rest) with
    | some r => some r
    | none => findHeader name opn rest

/-- The non-greedy `(.*?)<close>;` part of the declaration regexes
(`re.DOTALL`): the text before the first occurrence of the two-character
terminator `<close>;`, or `none` when no terminator follows. -/
def findClose (cl : Char) : PyStr → Option PyStr
  | [] => none
  | [_] => none
  | a :: b :: rest =>
    if a = cl && b = ';' then some []
    else (findClose cl (b :: rest)).map (a :: ·)

/-- `re.findall(r'"([^"]+)"', s)` as a one-character state machine.
`acc = none` is the scanning state; `acc = some cur` means an opening
quote was consumed and `cur` holds the (reversed) run of non-quote
characters.  A quote after an empty run is the regex engine failing at
the previous quote and restarting at this one. -/
def quotedItemsAux (acc : Option PyStr) : PyStr → List PyStr
  | [] => []
  | c :: rest =>
    match acc with
    | none =>
      if c = '"' then quotedItemsAux (some []) rest else quotedItemsAux none rest
    | some cur =>
      if c = '"' then
        match cur with
        | [] => quotedItemsAux (some []) rest
        | _ => cur.reverse :: quotedItemsAux none rest
      else quotedItemsAux (some (c :: cur)) rest

/-- `re.findall(r'\[([\d\s]+)\]', s)` as a one-character state machine:
a bracketed non-empty run of digits and whitespace; any other character
aborts the current candidate (a fresh `[` restarts one). -/
def rowItemsAux (acc : Option PyStr) : PyStr → List PyStr
  | [] => []
  | c :: rest =>
    match acc with
    | none =>
      if c = '[' then rowItemsAux (some []) rest else rowItemsAux none rest
    | some cur =>
      if c = ']' then
        match cur with
        | [] => rowItemsAux none rest
        | _ => cur.reverse :: rowItemsAux none rest
      else if c = '[' then rowItemsAux (some []) rest
      else if isDigitCh c || isPySpace c then rowItemsAux (some (c :: cur)) rest
      else rowItemsAux none rest

/-- `re.findall(r'\{([^}]*)\}', s)`: brace-delimited runs of
non-`}` characters (possibly empty). -/
def braceItemsAux (acc : Option PyStr) : PyStr → List PyStr
  | [] => []
  | c :: rest =>
    match acc with
    | none =>
      if c = '{' then braceItemsAux (some []) rest else braceItemsAux none rest
    | some cur =>
      if c = '}' then cur.reverse :: braceItemsAux none rest
      else braceItemsAux (some (c :: cur)) rest

/-- `parse_opl_set(content, name)`: find `name = { ... };`, trim the
body, and collect the quoted items.  `none` when the declaration is
absent. -/
def parse_opl_set (content name : PyStr) : Option (List PyStr) :=
  match findHeader name '{' content with
  | none => none
  | some rest =>
    match findClose '}' rest with
    | none => none
    | some body => some (quotedItemsAux none (trimWs body))

/-- Outcome of `parse_opl_1d_array`: the declaration may be absent
(Python `None`), a token may fail `int()` (Python `ValueError`), or the
integer list is returned. -/
inductive Parse1D where
  | notFound : Parse1D
  | valueError : Parse1D
  | ok : List Int → Parse1D
deriving DecidableEq, Repr

/-- `parse_opl_1d_array(content, name)`:
`[int(x) for x in values_str.split() if x.strip()]`. -/
def parse_opl_1d_array (content name : PyStr) : Parse1D :=
  match findHeader name '[' content with
  | none => .notFound
  | some rest =>
    match findClose ']' rest with
    | none => .notFound
    | some body =>
      let toks := (splitWs body).filter fun t => trimWs t ≠ []
      if toks.all fun t => (pyInt t).isSome then
        .ok (toks.map fun t => (pyInt t).getD 0)
      else .valueError

/-- `parse_opl_2d_array(content, name)`: bracketed digit/whitespace
rows inside the first `name = [ ...];` declaration; each row is split
on whitespace and its (all-digit) tokens converted. -/
def parse_opl_2d_array (content name : PyStr) : Option (List (List Nat)) :=
  match findHeader name '[' content with
  | none => none
  | some rest =>
    match findClose ']' rest with
    | none => none
    | some body =>
      some ((rowItemsAux none body).map fun r => (splitWs r).map natVal)

/-- `parse_opl_array_of_sets(content, name)`: brace-delimited sets
inside the first `name = [ ... ];` declaration. -/
def parse_opl_array_of_sets (content name : PyStr) : Option (List (List PyStr)) :=
  match findHeader name '[' content with
  | none => none
  | some rest =>
    match findClose ']' rest with
    | none => none
    | some body =>
      some ((braceItemsAux none body).map fun s => quotedItemsAux none s)

/-- Deterministic attempt of the `parse_opl_3d_array` cell-block regex
`\[\s*\[([0-9\s]+)\]\s*\[([0-9\s]+)\]\s*\[([0-9\s]+)\]\s*\[([0-9\s]+)\]\s*\]`
anchored at the start of `s`: four bracketed digit/whitespace runs, then
the closing bracket.  Returns the four groups and the rest of the text. -/
def matchCellBlock (s : PyStr) : Option (List PyStr × PyStr) :=
  match s with
  | '[' :: r0 =>
    let step := fun (t : PyStr) =>
      match dropWs t with
      | '[' :: t1 =>
        let run := t1.takeWhile fun c => isDigitCh c || isPySpace c
        let t2 := t1.dropWhile fun c => isDigitCh c || isPySpace c
        if run ≠ [] then
          match t2 with
          | ']' :: t3 => some (run, t3)
          | _ => none
        else none
      | _ => none
    match step r0 with
    | none => none
    | some (g1, r1) =>
      match step r1 with
      | none => none
      | some (g2, r2) =>
        match step r2 with
        | none => none
        | some (g3, r3) =>
          match step r3 with
          | none => none
          | some (g4, r4) =>
            match dropWs r4 with
            | ']' :: r5 => some ([g1, g2, g3, g4], r5)
            | _ => none
  | _ => none

/-- `re.findall` of the cell-block regex: scan left to right, restart
one character later on failure, continue after the match on success
(fuelled; fuel = text length suffices as each step consumes at least
one character). -/
def scan3dAux : Nat → PyStr → List (List PyStr)
  | 0, _ => []
  | _ + 1, [] => []
  | fuel + 1, c :: rest =>
    match matchCellBlock (c :: rest) with
    | some (gs, rest') => gs :: scan3dAux fuel rest'
    | none => scan3dAux fuel rest

/-- `parse_opl_3d_array(content, name)`: whitespace is collapsed
(`re.sub(r'\s+', ' ', data)` only merges separators, which the scanner
ignores anyway, so the model scans the raw body), then every
well-formed four-row cell block is collected. -/
def parse_opl_3d_array (content name : PyStr) : Option (List (List (List Nat))) :=
  match findHeader name '[' content with
  | none => none
  | some rest =>
    match findClose ']' rest with
    | none => none
    | some body =>
      some ((scan3dAux body.length body).map fun gs =>
        gs.map fun g => (splitWs g).map natVal)

/- ## Auxiliary definitions for the verification -/

/-- Modelled from the spec: §4.3's "supplied arrays do not cover every
declared set member" — the condition under which the spec says encoding
fails with `InconsistentOrder` (the code has no such check, which is
what claim C7 is about). -/
def coversAllMembers (data : List (PyStr × List (PyStr × ℚ)))
    (rows cols : List PyStr) : Bool :=
  rows.all fun r =>
    match data.lookup r with
    | none => false
    | some rowData => cols.all fun c => (rowData.lookup c).isSome

/-- The quoted-items state machine together with its final state, used
to reason about `quotedItemsAux` on concatenated text. -/
def quotedRun (a : Option PyStr) : PyStr → List PyStr × Option PyStr
  | [] => ([], a)
  | c :: rest =>
    match a with
    | none =>
      if c = '"' then quotedRun (some []) rest else quotedRun none rest
    | some cur =>
      if c = '"' then
        match cur with
        | [] => quotedRun (some []) rest
        | _ => let p := quotedRun none rest; (cur.reverse :: p.1, p.2)
      else quotedRun (some (c :: cur)) rest

/-- The per-item text `write_opl_set` emits. -/
def setItemLine (item : PyStr) : PyStr :=
  ("  \"".data) ++ item ++ ("\",\n".data)

/-- Items that round-trip through the set writer and the quoted-string
scan: non-empty, no quote (which would terminate the match early) and
no closing brace (which could end the declaration body early). -/
def GoodItem (it : PyStr) : Prop :=
  it ≠ [] ∧ '"' ∉ it ∧ '}' ∉ it

/-- Invariant of the BFS loop state: queue distances form two adjacent
levels (pairwise `≤` and within 1), the visited set is exactly the
queued-or-assigned cells, queued cells are distinct and never already
assigned, every neighbor of an assigned cell is visited with a distance
within 1 (assigned) or in `[d, d+1]` (still queued), assigned distances
never exceed queued ones, and every visited cell satisfies the ambient
predicate `P` (used to transport adjacency symmetry). -/
structure BfsInv (adj : PyStr → List PyStr) (P : PyStr → Prop)
    (queue : List (PyStr × Nat)) (visited : List PyStr)
    (dist : List (PyStr × Nat)) : Prop where
  pairQ : queue.Pairwise fun p q => p.2 ≤ q.2 ∧ q.2 ≤ p.2 + 1
  visIff : ∀ w, w ∈ visited ↔ ((∃ e, (w, e) ∈ queue) ∨ (∃ dd, (w, dd) ∈ dist))
  nodupQ : (queue.map Prod.fst).Nodup
  disjQD : ∀ w, (∃ e, (w, e) ∈ queue) → (∃ dd, (w, dd) ∈ dist) → False
  edgeInv : ∀ a da, (a, da) ∈ dist → ∀ b, b ∈ adj a →
    b ∈ visited ∧
    (∀ db, (b, db) ∈ dist → db ≤ da + 1 ∧ da ≤ db + 1) ∧
    (∀ eb, (b, eb) ∈ queue → da ≤ eb ∧ eb ≤ da + 1)
  qdLe : ∀ w e, (w, e) ∈ queue → ∀ a dd, (a, dd) ∈ dist → dd ≤ e
  pVis : ∀ w ∈ visited, P w

/- ## Helper lemmas -/

theorem lookup_mem {l : List (PyStr × Nat)} {k : PyStr} {v : Nat}
    (h : l.lookup k = some v) : (k, v) ∈ l := by
  induction l with
  | nil => simp [List.lookup] at h
  | cons p rest ih =>
    rw [List.lookup] at h
    split at h
    · next heq =>
      cases h
      have hk : k = p.1 := by simpa using heq
      rw [hk]
      exact List.mem_cons_self _ _
    · exact List.mem_cons_of_mem _ (ih h)

theorem neighborLoop_eq_filter (coords : List (Int × Int)) (ids : List PyStr) :
    neighborLoop coords ids =
      (coords.map fun p => formatGridId p.2 p.1).filter fun x => ids.contains x := by
  induction coords with
  | nil => rfl
  | cons p rest ih =>
    obtain ⟨r, c⟩ := p
    by_cases h : ids.contains (formatGridId c r) <;>
      simp [neighborLoop, List.filter_cons, h, ih]

/- ## Claim C5 -/

/-- C5: for every identifier of the form `cell_<col>_<row>` and every id
set, the neighbor list is exactly the eight Moore candidates in the
fixed source order — up, down, left, right, up-left, down-right,
left-down, right-up — filtered by membership in the id set (absent
candidates are skipped without disturbing the order). -/
theorem get_neighbors_moore_order (u : PyStr) (ids : List PyStr) (c r : Int)
    (h : parseGridId u = some (c, r)) :
    get_neighbors u ids = some
      (([formatGridId c (r - 1), formatGridId c (r + 1),
         formatGridId (c - 1) r, formatGridId (c + 1) r,
         formatGridId (c - 1) (r - 1), formatGridId (c + 1) (r + 1),
         formatGridId (c - 1) (r + 1), formatGridId (c + 1) (r - 1)]).filter
        fun x => ids.contains x) := by
  simp only [get_neighbors, h]
  rw [neighborLoop_eq_filter]
  simp [mooreCoords]

/-- Witness for C5 at `cell_1_1` against a two-element id set. -/
theorem get_neighbors_moore_order_witness :
    get_neighbors ("cell_1_1".data) [("cell_1_0".data), ("cell_2_2".data)] = some
      (([formatGridId 1 (1 - 1), formatGridId 1 (1 + 1),
         formatGridId (1 - 1) 1, formatGridId (1 + 1) 1,
         formatGridId (1 - 1) (1 - 1), formatGridId (1 + 1) (1 + 1),
         formatGridId (1 - 1) (1 + 1), formatGridId (1 + 1) (1 - 1)]).filter
        fun x => [("cell_1_0".data), ("cell_2_2".data)].contains x) :=
  get_neighbors_moore_order _ _ 1 1 (by decide)

/- ## Claim C9 -/

/-- C9 counterexample: `foo_1_2` does not match the spec's
`cell_<int>_<int>` pattern, yet `get_neighbors` silently accepts it and
returns a neighbor list instead of failing. -/
theorem nonmatching_id_accepted :
    matchesCellPattern ("foo_1_2".data) = false ∧
    get_neighbors ("foo_1_2".data) [("cell_1_1".data)] =
      some [("cell_1_1".data)] := by
  constructor
  · decide
  · decide

/-- C9 amended: neighbor computation fails exactly when the identifier
does not yield two integer fields after its first underscore-separated
component; the leading component (`cell` or anything else) is never
validated, so any `<prefix>_<int>_<int>` identifier is accepted. -/
theorem get_neighbors_failure_characterization (s : PyStr) (ids : List PyStr) :
    (parseGridId s = none → get_neighbors s ids = none) ∧
    (∀ c r, parseGridId s = some (c, r) → ∃ l, get_neighbors s ids = some l) := by
  constructor
  · intro h; simp [get_neighbors, h]
  · intro c r h
    exact ⟨neighborLoop (mooreCoords r c) ids, by simp [get_neighbors, h]⟩

/-- Witness for C9 amended at a concrete malformed and a concrete
accepted identifier. -/
theorem get_neighbors_failure_characterization_witness :
    get_neighbors ("cell_one_2".data) [] = none ∧
    ∃ l, get_neighbors ("bar_2_3".data) [] = some l :=
  ⟨(get_neighbors_failure_characterization ("cell_one_2".data) []).1 (by decide),
   (get_neighbors_failure_characterization ("bar_2_3".data) []).2 2 3 (by decide)⟩

/- ## Claim C3 -/

/-- C3 counterexample: in a disconnected two-cell dataset,
`cell_5_5` is unreached by the BFS from `cell_0_0` (its lookup is
absent), yet the species distance column still carries an entry for it
— the initial default `0` — rather than no entry. -/
theorem unreached_cell_zero_entry :
    (bfs (adjOf [("cell_0_0".data), ("cell_5_5".data)]) ("cell_0_0".data) 3).lookup
        ("cell_5_5".data) = none ∧
    speciesDistanceColumn [("cell_0_0".data), ("cell_5_5".data)]
        [("cell_0_0".data)] 3 ("cell_5_5".data) = [0] := by
  constructor
  · decide
  · decide

/-- C3 amended: a cell unreached by the BFS from origin `i` still has a
distance entry at index `i`, namely the initialisation default `0`,
indistinguishable from a true zero distance; absence is never produced. -/
theorem unreached_cell_defaults_zero (ids origins : List PyStr) (fuel i : Nat)
    (cell : PyStr) (hi : i < origins.length)
    (h : (bfs (adjOf ids) (origins.getD i []) fuel).lookup cell = none) :
    (speciesDistanceColumn ids origins fuel cell).getD i 1 = 0 := by
  unfold speciesDistanceColumn
  rw [List.getD_eq_getElem?_getD, List.getElem?_map, List.getElem?_range hi]
  simp only [List.getD_eq_getElem?_getD] at h
  simp [h]

/-- Witness for C3 amended at the concrete disconnected dataset. -/
theorem unreached_cell_defaults_zero_witness :
    (speciesDistanceColumn [("cell_0_0".data), ("cell_9_9".data)]
        [("cell_0_0".data)] 3 ("cell_9_9".data)).getD 0 1 = 0 :=
  unreached_cell_defaults_zero _ _ 3 0 _ (by decide) (by decide)

/- ## Claim C6 -/

theorem headerAt_isPrefix {name : PyStr} {opn : Char} {s r : PyStr}
    (h : headerAt name opn s = some r) : name <+: s := by
  unfold headerAt at h
  split at h
  · next hp => exact List.isPrefixOf_iff_prefix.mp hp
  · exact absurd h (by simp)

theorem findHeader_eq_none_of_not_infix {name content : PyStr} (opn : Char)
    (h : ¬ name <:+: content) : findHeader name opn content = none := by
  induction content with
  | nil =>
    rw [findHeader]
    cases hh : headerAt name opn [] with
    | none => rfl
    | some r => exact absurd (headerAt_isPrefix hh).isInfix h
  | cons c rest ih =>
    rw [findHeader]
    cases hh : headerAt name opn (c :: rest) with
    | some r => exact absurd (headerAt_isPrefix hh).isInfix h
    | none => exact ih fun hi => h (List.infix_cons hi)

/-- C6: if no declaration with the given name occurs anywhere in the
text (the name is not even a substring), every decoder — set, 1-D
array, 2-D array, array-of-sets, 3-D structure — returns the explicit
"no data" result instead of raising; moreover `cor = [1 0 0];` decodes
to `[1,0,0]` and a solution text lacking a `con` declaration decodes
`con` to the absent result without crashing. -/
theorem decoders_absent_return_no_data (content name : PyStr)
    (h : ¬ name <:+: content) :
    (parse_opl_set content name = none ∧
     parse_opl_1d_array content name = Parse1D.notFound ∧
     parse_opl_2d_array content name = none ∧
     parse_opl_array_of_sets content name = none ∧
     parse_opl_3d_array content name = none) ∧
    parse_opl_1d_array ("cor = [1 0 0];".data) ("cor".data) = Parse1D.ok [1, 0, 0] ∧
    parse_opl_2d_array
      ("add = [\n[1 0]\n[0 1]\n];\ncor = [1 0 0];\ncon_o = [[[1 0] [0 1] [1 0] [1 1]]];".data)
      ("con".data) = none := by
  refine ⟨⟨?_, ?_, ?_, ?_, ?_⟩, by decide, by decide⟩
  · simp [parse_opl_set, findHeader_eq_none_of_not_infix _ h]
  · simp [parse_opl_1d_array, findHeader_eq_none_of_not_infix _ h]
  · simp [parse_opl_2d_array, findHeader_eq_none_of_not_infix _ h]
  · simp [parse_opl_array_of_sets, findHeader_eq_none_of_not_infix _ h]
  · simp [parse_opl_3d_array, findHeader_eq_none_of_not_infix _ h]

/-- Witness for C6: the name `Cells` occurs nowhere in `x = [1];`. -/
theorem decoders_absent_return_no_data_witness :
    parse_opl_set ("x = [1];".data) ("Cells".data) = none ∧
    parse_opl_1d_array ("x = [1];".data) ("Cells".data) = Parse1D.notFound :=
  ⟨((decoders_absent_return_no_data ("x = [1];".data) ("Cells".data) (by decide)).1).1,
   ((decoders_absent_return_no_data ("x = [1];".data) ("Cells".data) (by decide)).1).2.1⟩

/- ## Claim C8 -/

/-- C8 counterexample: a `con_o` declaration whose single cell block has
three bracketed rows instead of four is not a fatal error — the decoder
silently returns the empty structure; likewise a 2-D row with a
non-integer token is silently dropped while the remaining row is
returned.  No exception is raised in either case. -/
theorem malformed_blocks_silently_skipped :
    parse_opl_3d_array ("con_o = [[[1 0] [0 1] [1 1]]];".data) ("con_o".data) =
      some [] ∧
    parse_opl_2d_array ("add = [[1 x] [1 0]];".data) ("add".data) =
      some [[1, 0]] := by
  constructor
  · decide
  · decide

/-- C8 amended: when a declaration is found but its body contains a
malformed cell block (arity other than four) or a malformed row
(non-digit tokens), the decoder raises nothing: the malformed pieces
are silently skipped and the remaining well-formed pieces — a partial
structure, possibly empty — are returned. -/
theorem malformed_rows_partial_result :
    parse_opl_3d_array
      ("con_o = [[[1 0] [0 1] [1 1]] [[1 0] [0 1] [1 1] [0 0]]];".data)
      ("con_o".data) = some [[[1, 0], [0, 1], [1, 1], [0, 0]]] ∧
    parse_opl_2d_array ("add = [[1 x] [0 1] [2]];".data) ("add".data) =
      some [[0, 1], [2]] := by
  constructor
  · decide
  · decide

/- ## Quoted-item machinery for the set round-trip (C1, C10) -/

theorem quotedRun_fst (s : PyStr) : ∀ a, (quotedRun a s).1 = quotedItemsAux a s := by
  induction s with
  | nil => intro a; rfl
  | cons c rest ih =>
    intro a
    match a with
    | none =>
      by_cases hc : c = '"' <;> simp [quotedRun, quotedItemsAux, hc, ih]
    | some cur =>
      by_cases hc : c = '"'
      · match cur with
        | [] => simp [quotedRun, quotedItemsAux, hc, ih]
        | x :: xs => simp [quotedRun, quotedItemsAux, hc, ih]
      · simp [quotedRun, quotedItemsAux, hc, ih]

theorem quotedRun_append (s : PyStr) : ∀ (a : Option PyStr) (t : PyStr),
    quotedRun a (s ++ t) =
      ((quotedRun a s).1 ++ (quotedRun (quotedRun a s).2 t).1,
       (quotedRun (quotedRun a s).2 t).2) := by
  induction s with
  | nil => intro a t; simp [quotedRun]
  | cons c rest ih =>
    intro a t
    match a with
    | none =>
      by_cases hc : c = '"' <;> simp [quotedRun, hc, ih]
    | some cur =>
      by_cases hc : c = '"'
      · match cur with
        | [] => simp [quotedRun, hc, ih]
        | x :: xs => simp [quotedRun, hc, ih]
      · simp [quotedRun, hc, ih]

theorem quotedRun_no_quote_none {s : PyStr} (h : '"' ∉ s) :
    quotedRun none s = ([], none) := by
  induction s with
  | nil => rfl
  | cons c rest ih =>
    have hc : c ≠ '"' := fun hcq => h (hcq ▸ List.mem_cons_self c rest)
    simp only [quotedRun]
    rw [if_neg (fun hcq => hc hcq)]
    exact ih fun hm => h (List.mem_cons_of_mem _ hm)

theorem quotedRun_no_quote_some {s : PyStr} : ∀ (cur : PyStr), '"' ∉ s →
    quotedRun (some cur) s = ([], some (s.reverse ++ cur)) := by
  induction s with
  | nil => intro cur h; simp [quotedRun]
  | cons c rest ih =>
    intro cur h
    have hc : c ≠ '"' := fun hcq => h (hcq ▸ List.mem_cons_self c rest)
    simp only [quotedRun]
    rw [if_neg (fun hcq => hc hcq)]
    rw [ih (c :: cur) (fun hm => h (List.mem_cons_of_mem _ hm))]
    simp

theorem quotedRun_setItemLine {it : PyStr} (hne : it ≠ []) (hq : '"' ∉ it) :
    quotedRun none (setItemLine it) = ([it], none) := by
  have hshape : setItemLine it = [' ', ' ', '"'] ++ (it ++ ['"', ',', '\n']) := by
    simp [setItemLine]
  rw [hshape, quotedRun_append]
  have h0 : quotedRun none [' ', ' ', '"'] = ([], some []) := rfl
  rw [h0]
  simp only []
  rw [quotedRun_append, quotedRun_no_quote_some [] hq]
  simp only [List.append_nil]
  cases hrev : it.reverse with
  | nil => exact absurd (by simpa using congrArg List.reverse hrev) hne
  | cons x xs =>
    have hstep : quotedRun (some (x :: xs)) ['"', ',', '\n'] = ([(x :: xs).reverse], none) := rfl
    rw [hstep]
    have : (x :: xs).reverse = it := by
      rw [← hrev, List.reverse_reverse]
    simp [this]

theorem quotedRun_itemLines {items : List PyStr}
    (hg : ∀ it ∈ items, it ≠ [] ∧ '"' ∉ it) :
    ∀ t, quotedRun none ((items.map setItemLine).flatten ++ t) =
      (items ++ (quotedRun none t).1, (quotedRun none t).2) := by
  induction items with
  | nil => intro t; simp
  | cons it rest ih =>
    intro t
    have hgi := hg it (List.mem_cons_self _ _)
    have hshape : ((it :: rest).map setItemLine).flatten ++ t =
        setItemLine it ++ ((rest.map setItemLine).flatten ++ t) := by
      simp [List.flatten]
    rw [hshape, quotedRun_append, quotedRun_setItemLine hgi.1 hgi.2]
    rw [ih (fun x hx => hg x (List.mem_cons_of_mem _ hx)) t]
    simp

theorem dropWs_cons_space {c : Char} (h : isPySpace c = true) (t : PyStr) :
    dropWs (c :: t) = dropWs t := by
  simp [dropWs, List.dropWhile, h]

theorem dropWs_cons_not_space {c : Char} (h : isPySpace c = false) (t : PyStr) :
    dropWs (c :: t) = c :: t := by
  simp [dropWs, List.dropWhile, h]

theorem findHeader_of_headerAt {name : PyStr} {opn : Char} {s r : PyStr}
    (h : headerAt name opn s = some r) : findHeader name opn s = some r := by
  cases s with
  | nil => rw [findHeader]; exact h
  | cons c rest => rw [findHeader, h]

theorem headerAt_decl (name : PyStr) (opn : Char) (X : PyStr)
    (hopn : isPySpace opn = false) :
    headerAt name opn (name ++ (' ' :: '=' :: ' ' :: opn :: '\n' :: []) ++ X) =
      some ('\n' :: X) := by
  unfold headerAt
  rw [List.append_assoc]
  rw [if_pos (List.isPrefixOf_iff_prefix.mpr ⟨_, rfl⟩)]
  rw [List.drop_left]
  show (match dropWs (' ' :: '=' :: ' ' :: opn :: '\n' :: X) with
    | '=' :: rest => match dropWs rest with
      | c :: rest2 => if c = opn then some rest2 else none
      | [] => none
    | _ => none) = some ('\n' :: X)
  have h1 : dropWs (' ' :: '=' :: ' ' :: opn :: '\n' :: X) =
      '=' :: ' ' :: opn :: '\n' :: X := by
    rw [dropWs_cons_space (by decide), dropWs_cons_not_space (by decide)]
  rw [h1]
  have h2 : dropWs (' ' :: opn :: '\n' :: X) = opn :: '\n' :: X := by
    rw [dropWs_cons_space (by decide), dropWs_cons_not_space hopn]
  show (match dropWs (' ' :: opn :: '\n' :: X) with
    | c :: rest2 => if c = opn then some rest2 else none
    | [] => none) = some ('\n' :: X)
  rw [h2]
  simp

theorem findClose_append_not_close {cl : Char} :
    ∀ (xs t : PyStr), cl ∉ xs →
      findClose cl (xs ++ cl :: ';' :: t) = some xs := by
  intro xs
  induction xs with
  | nil =>
    intro t _
    show findClose cl (cl :: ';' :: t) = some []
    rw [findClose]
    simp
  | cons a rest ih =>
    intro t h
    have ha : a ≠ cl := fun hq => h (hq ▸ List.mem_cons_self a rest)
    have hr : cl ∉ rest := fun hm => h (List.mem_cons_of_mem _ hm)
    cases rest with
    | nil =>
      show findClose cl (a :: cl :: ';' :: t) = some [a]
      rw [findClose]
      rw [if_neg (by simp [ha])]
      rw [show findClose cl (cl :: ';' :: t) = some [] from by rw [findClose]; simp]
      rfl
    | cons b rest2 =>
      show findClose cl (a :: b :: (rest2 ++ cl :: ';' :: t)) = some (a :: b :: rest2)
      rw [findClose]
      rw [if_neg (by simp [ha])]
      rw [show (b :: (rest2 ++ cl :: ';' :: t)) = (b :: rest2) ++ cl :: ';' :: t from rfl]
      rw [ih t hr]
      rfl

theorem findClose_append_no_semi {cl : Char} (hcl : cl ≠ ';') :
    ∀ (xs t : PyStr), ';' ∉ xs →
      findClose cl (xs ++ cl :: ';' :: t) = some xs := by
  intro xs
  induction xs with
  | nil =>
    intro t _
    show findClose cl (cl :: ';' :: t) = some []
    rw [findClose]
    simp
  | cons a rest ih =>
    intro t h
    have hr : ';' ∉ rest := fun hm => h (List.mem_cons_of_mem _ hm)
    cases rest with
    | nil =>
      show findClose cl (a :: cl :: ';' :: t) = some [a]
      rw [findClose]
      rw [if_neg (by simp [hcl])]
      rw [show findClose cl (cl :: ';' :: t) = some [] from by rw [findClose]; simp]
      rfl
    | cons b rest2 =>
      have hb : b ≠ ';' := fun hq => h (hq ▸ List.mem_cons_of_mem _ (List.mem_cons_self b rest2))
      show findClose cl (a :: b :: (rest2 ++ cl :: ';' :: t)) = some (a :: b :: rest2)
      rw [findClose]
      rw [if_neg (by simp [hb])]
      rw [show (b :: (rest2 ++ cl :: ';' :: t)) = (b :: rest2) ++ cl :: ';' :: t from rfl]
      rw [ih t hr]
      rfl

theorem trimWs_decomp (s : PyStr) :
    ∃ w1 w2, s = w1 ++ trimWs s ++ w2 ∧
      (∀ c ∈ w1, isPySpace c = true) ∧ (∀ c ∈ w2, isPySpace c = true) := by
  refine ⟨s.takeWhile fun c => isPySpace c,
    (((dropWs s).reverse).takeWhile fun c => isPySpace c).reverse, ?_, ?_, ?_⟩
  · have hs : s = (s.takeWhile fun c => isPySpace c) ++ dropWs s :=
      (List.takeWhile_append_dropWhile (p := fun c => isPySpace c) (l := s)).symm
    have h3 : (dropWs s).reverse =
        (((dropWs s).reverse).takeWhile fun c => isPySpace c) ++
          ((dropWs s).reverse).dropWhile fun c => isPySpace c :=
      (List.takeWhile_append_dropWhile (p := fun c => isPySpace c)
        (l := (dropWs s).reverse)).symm
    have h4 := congrArg List.reverse h3
    rw [List.reverse_reverse, List.reverse_append] at h4
    have hd : dropWs s =
        trimWs s ++ (((dropWs s).reverse).takeWhile fun c => isPySpace c).reverse := h4
    rw [List.append_assoc, ← hd, ← hs]
  · intro c hc
    simpa using List.mem_takeWhile_imp hc
  · intro c hc
    rw [List.mem_reverse] at hc
    simpa using List.mem_takeWhile_imp hc

theorem quotedItemsAux_trim (s : PyStr) :
    quotedItemsAux none (trimWs s) = quotedItemsAux none s := by
  obtain ⟨w1, w2, hdec, hw1, hw2⟩ := trimWs_decomp s
  have hq1 : '"' ∉ w1 := fun hm => absurd (hw1 _ hm) (by decide)
  have hq2 : '"' ∉ w2 := fun hm => absurd (hw2 _ hm) (by decide)
  conv_rhs => rw [hdec]
  rw [← quotedRun_fst, ← quotedRun_fst]
  rw [List.append_assoc, quotedRun_append w1, quotedRun_no_quote_none hq1]
  dsimp only
  rw [quotedRun_append (trimWs s)]
  dsimp only
  cases hsig : (quotedRun none (trimWs s)).2 with
  | none => rw [quotedRun_no_quote_none hq2]; simp
  | some cur => rw [quotedRun_no_quote_some cur hq2]; simp

theorem mem_setItemLines {items : List PyStr} {c : Char}
    (hc : c ∈ (items.map setItemLine).flatten) :
    c = ' ' ∨ c = '"' ∨ c = ',' ∨ c = '\n' ∨ ∃ it ∈ items, c ∈ it := by
  rw [List.mem_flatten] at hc
  obtain ⟨l, hl, hcl⟩ := hc
  rw [List.mem_map] at hl
  obtain ⟨it, hit, rfl⟩ := hl
  unfold setItemLine at hcl
  rw [show (("  \"".data : PyStr)) = [' ', ' ', '"'] from rfl,
    show (("\",\n".data : PyStr)) = ['"', ',', '\n'] from rfl] at hcl
  simp only [List.mem_append, List.mem_cons, List.not_mem_nil, or_false] at hcl
  rcases hcl with ((h | h | h) | h) | (h | h | h)
  · exact Or.inl h
  · exact Or.inl h
  · exact Or.inr (Or.inl h)
  · exact Or.inr (Or.inr (Or.inr (Or.inr ⟨it, hit, h⟩)))
  · exact Or.inr (Or.inl h)
  · exact Or.inr (Or.inr (Or.inl h))
  · exact Or.inr (Or.inr (Or.inr (Or.inl h)))

theorem write_opl_set_shape (name : PyStr) (items : List PyStr) :
    write_opl_set name items =
      name ++ (' ' :: '=' :: ' ' :: '{' :: '\n' :: []) ++
        ((items.map setItemLine).flatten ++ ('}' :: ';' :: '\n' :: '\n' :: [])) := by
  unfold write_opl_set
  rw [show ((" = \x7b\n".data : PyStr)) = ' ' :: '=' :: ' ' :: '{' :: '\n' :: [] from rfl]
  rw [show (("\x7d;\n\n".data : PyStr)) = '}' :: ';' :: '\n' :: '\n' :: [] from rfl]
  rw [show (fun item => (("  \"".data : PyStr)) ++ item ++ (("\",\n".data : PyStr))) =
    setItemLine from rfl]
  simp [List.append_assoc]

theorem parse_opl_set_decl_shape (name L : PyStr) (hb : '}' ∉ L) :
    parse_opl_set
      (name ++ (' ' :: '=' :: ' ' :: '{' :: '\n' :: []) ++
        (L ++ ('}' :: ';' :: '\n' :: '\n' :: []))) name =
      some (quotedItemsAux none ('\n' :: L)) := by
  unfold parse_opl_set
  rw [findHeader_of_headerAt (headerAt_decl name '{' _ (by decide))]
  dsimp only
  rw [show ('\n' :: (L ++ ('}' :: ';' :: '\n' :: '\n' :: []))) =
    (('\n' :: L) ++ ('}' :: ';' :: '\n' :: '\n' :: [])) from by simp]
  rw [findClose_append_not_close ('\n' :: L) ('\n' :: '\n' :: [])
    (fun hm => by
      rcases List.mem_cons.mp hm with h | h
      · exact absurd h (by decide)
      · exact hb h)]
  dsimp only
  rw [quotedItemsAux_trim]

theorem quotedRun_newline_cons (L : PyStr) :
    quotedRun none ('\n' :: L) = quotedRun none L := by
  simp [quotedRun]

theorem roundtrip_set_items (name : PyStr) (items : List PyStr)
    (hg : ∀ it ∈ items, it ≠ [] ∧ '"' ∉ it ∧ '}' ∉ it) :
    parse_opl_set (write_opl_set name items) name = some items := by
  rw [write_opl_set_shape]
  rw [parse_opl_set_decl_shape name _
    (fun hm => by
      rcases mem_setItemLines hm with h | h | h | h | ⟨it, hit, hin⟩
      · exact absurd h (by decide)
      · exact absurd h (by decide)
      · exact absurd h (by decide)
      · exact absurd h (by decide)
      · exact (hg it hit).2.2 hin)]
  rw [← quotedRun_fst, quotedRun_newline_cons]
  have h5 := quotedRun_itemLines (fun it hit => ⟨(hg it hit).1, (hg it hit).2.1⟩) []
  rw [List.append_nil] at h5
  rw [h5]
  simp [quotedRun]

/- ## Claim C10 -/

/-- C10 counterexample: encoding the set `["", "a"]` and decoding it
does not return the non-empty quoted strings `["a"]`: the regex
realigns at the empty string's closing quote and returns the separator
text `",\n  "` as the single element. -/
theorem empty_item_not_dropped :
    parse_opl_set (write_opl_set ("S".data) [[], ['a']]) ("S".data) =
      some [(",\n  ".data)] ∧
    parse_opl_set (write_opl_set ("S".data) [[], ['a']]) ("S".data) ≠
      some [['a']] := by
  constructor
  · decide
  · decide

/-- C10 amended: a trailing empty quoted element is silently dropped
(encode-decode of `items ++ [""]` yields `items`); a non-trailing empty
element shifts the quote pairing, so the following elements are lost
and spurious separator strings are returned instead — in both cases
the original list is not recovered. -/
theorem empty_item_realignment (name : PyStr) (items : List PyStr)
    (hg : ∀ it ∈ items, it ≠ [] ∧ '"' ∉ it ∧ '}' ∉ it) :
    parse_opl_set (write_opl_set name (items ++ [[]])) name = some items ∧
    parse_opl_set (write_opl_set ("S".data) [[], ['a'], ['b']]) ("S".data) =
      some [(",\n  ".data), (",\n  ".data)] := by
  constructor
  · rw [write_opl_set_shape]
    rw [parse_opl_set_decl_shape name _
      (fun hm => by
        rcases mem_setItemLines hm with h | h | h | h | ⟨it, hit, hin⟩
        · exact absurd h (by decide)
        · exact absurd h (by decide)
        · exact absurd h (by decide)
        · exact absurd h (by decide)
        · rcases List.mem_append.mp hit with hmem | hmem
          · exact (hg it hmem).2.2 hin
          · rw [List.mem_singleton.mp hmem] at hin
            exact List.not_mem_nil _ hin)]
    rw [← quotedRun_fst, quotedRun_newline_cons]
    have hsplit : (((items ++ [[]]).map setItemLine)).flatten =
        (items.map setItemLine).flatten ++ setItemLine [] := by
      simp
    rw [hsplit,
      quotedRun_itemLines (fun it hit => ⟨(hg it hit).1, (hg it hit).2.1⟩) (setItemLine [])]
    rw [show quotedRun none (setItemLine []) = ([], some ['\n', ',']) from rfl]
    simp
  · decide

/-- Witness for C10 amended: trailing empty element at a concrete set. -/
theorem empty_item_realignment_witness :
    parse_opl_set (write_opl_set ("T".data) [['x'], ['y'], []]) ("T".data) =
      some [['x'], ['y']] :=
  (empty_item_realignment ("T".data) [['x'], ['y']] (by decide)).1

/- ## Float rendering and the 2-D matrix round-trip failure (C1, C7) -/

theorem digitCh_isDigit {n : Nat} (h : n < 10) : isDigitCh (digitCh n) = true := by
  interval_cases n <;> decide

theorem natCharsAux_digits (fuel : Nat) : ∀ (n : Nat) (c : Char),
    c ∈ natCharsAux fuel n → isDigitCh c = true := by
  induction fuel with
  | zero => intro n c hc; simp [natCharsAux] at hc
  | succ fuel ih =>
    intro n c hc
    rw [natCharsAux] at hc
    split at hc
    · next h =>
      rw [List.mem_singleton.mp hc]
      exact digitCh_isDigit h
    · rcases List.mem_append.mp hc with h | h
      · exact ih _ _ h
      · rw [List.mem_singleton.mp h]
        exact digitCh_isDigit (Nat.mod_lt _ (by omega))

theorem natChars_digits {n : Nat} {c : Char} (hc : c ∈ natChars n) :
    isDigitCh c = true :=
  natCharsAux_digits _ _ _ hc

theorem natChars_ne_nil (n : Nat) : natChars n ≠ [] := by
  unfold natChars natCharsAux
  split
  · simp
  · simp

theorem fracDigitsAux_digits (fuel : Nat) : ∀ (r d : Nat), r < d →
    ∀ c ∈ fracDigitsAux fuel r d, isDigitCh c = true := by
  induction fuel with
  | zero => intro r d _ c hc; simp [fracDigitsAux] at hc
  | succ fuel ih =>
    intro r d hrd c hc
    have hd : 0 < d := lt_of_le_of_lt (Nat.zero_le r) hrd
    rw [fracDigitsAux] at hc
    split at hc
    · simp at hc
    · rcases List.mem_cons.mp hc with h | h
      · have hlt : r * 10 / d < 10 := by
          rw [Nat.div_lt_iff_lt_mul hd]
          calc r * 10 < d * 10 := by omega
          _ = 10 * d := by ring
        rw [h]
        exact digitCh_isDigit hlt
      · exact ih (r * 10 % d) d (Nat.mod_lt _ hd) _ h

theorem renderQNonneg_shape (n d : Nat) (hd : 0 < d) :
    ∃ ds fs, renderQNonneg n d = ds ++ '.' :: fs ∧
      (∀ c ∈ ds, isDigitCh c = true) ∧ (∀ c ∈ fs, isDigitCh c = true) ∧ ds ≠ [] := by
  refine ⟨natChars (n / d), _, rfl, fun c hc => natChars_digits hc, ?_, natChars_ne_nil _⟩
  intro c hc
  split at hc
  · rw [List.mem_singleton.mp hc]; decide
  · exact fracDigitsAux_digits 30 _ _ (Nat.mod_lt _ hd) _ hc

/-- Every character of a rendered float is a digit, `'-'` or `'.'`. -/
theorem renderQ_chars {q : ℚ} {c : Char} (hc : c ∈ renderQ q) :
    c = '-' ∨ c = '.' ∨ isDigitCh c = true := by
  unfold renderQ at hc
  split at hc
  · rcases List.mem_cons.mp hc with h | h
    · exact Or.inl h
    · obtain ⟨ds, fs, heq, hds, hfs, _⟩ := renderQNonneg_shape q.num.natAbs q.den q.pos
      rw [heq] at h
      rcases List.mem_append.mp h with h2 | h2
      · exact Or.inr (Or.inr (hds _ h2))
      · rcases List.mem_cons.mp h2 with h3 | h3
        · exact Or.inr (Or.inl h3)
        · exact Or.inr (Or.inr (hfs _ h3))
  · obtain ⟨ds, fs, heq, hds, hfs, _⟩ := renderQNonneg_shape q.num.natAbs q.den q.pos
    rw [heq] at hc
    rcases List.mem_append.mp hc with h2 | h2
    · exact Or.inr (Or.inr (hds _ h2))
    · rcases List.mem_cons.mp h2 with h3 | h3
      · exact Or.inr (Or.inl h3)
      · exact Or.inr (Or.inr (hfs _ h3))

/-- A rendered float always has a "blocking" character (`'-'` or `'.'`)
preceded only by digits: the `[\d\s]+` row regex can never reach a
closing bracket through it. -/
theorem renderQ_blocked (q : ℚ) :
    ∃ ds b rest, renderQ q = ds ++ b :: rest ∧
      (∀ x ∈ ds, isDigitCh x = true) ∧ (b = '-' ∨ b = '.') := by
  unfold renderQ
  split
  · exact ⟨[], '-', renderQNonneg q.num.natAbs q.den, rfl, by simp, Or.inl rfl⟩
  · obtain ⟨ds, fs, heq, hds, _, _⟩ := renderQNonneg_shape q.num.natAbs q.den q.pos
    exact ⟨ds, '.', fs, heq, hds, Or.inr rfl⟩

theorem rowItemsAux_skip {s : PyStr} (t : PyStr) (h : '[' ∉ s) :
    rowItemsAux none (s ++ t) = rowItemsAux none t := by
  induction s with
  | nil => rfl
  | cons c rest ih =>
    have hc : c ≠ '[' := fun hq => h (hq ▸ List.mem_cons_self c rest)
    show rowItemsAux none (c :: (rest ++ t)) = rowItemsAux none t
    rw [rowItemsAux]
    rw [if_neg (fun hq => hc hq)]
    exact ih fun hm => h (List.mem_cons_of_mem _ hm)

theorem rowItemsAux_abort {b : Char} (hb1 : b ≠ ']') (hb2 : b ≠ '[')
    (hb3 : isDigitCh b = false) (hb4 : isPySpace b = false) :
    ∀ (ds : PyStr) (cur rest : PyStr), (∀ x ∈ ds, isDigitCh x = true) →
      rowItemsAux (some cur) (ds ++ b :: rest) = rowItemsAux none rest := by
  intro ds
  induction ds with
  | nil =>
    intro cur rest _
    show rowItemsAux (some cur) (b :: rest) = rowItemsAux none rest
    cases cur with
    | nil => rw [rowItemsAux]; simp [hb1, hb2, hb3, hb4]
    | cons x xs =>
      rw [rowItemsAux]
      · simp [hb1, hb2, hb3, hb4]
      · simp
  | cons d ds ih =>
    intro cur rest hds
    have hd : isDigitCh d = true := hds d (List.mem_cons_self _ _)
    have hdns : d ≠ ']' := fun hq => by rw [hq] at hd; exact absurd hd (by decide)
    have hdnb : d ≠ '[' := fun hq => by rw [hq] at hd; exact absurd hd (by decide)
    have htail : rowItemsAux (some (d :: cur)) (ds ++ b :: rest) = rowItemsAux none rest :=
      ih (d :: cur) rest fun x hx => hds x (List.mem_cons_of_mem _ hx)
    show rowItemsAux (some cur) (d :: (ds ++ b :: rest)) = rowItemsAux none rest
    cases cur with
    | nil => rw [rowItemsAux]; simp only [if_neg (fun h => hdns h), if_neg (fun h => hdnb h), hd,
        Bool.true_or, if_true]; exact htail
    | cons x xs =>
      rw [rowItemsAux]
      · simp only [if_neg (fun h => hdns h), if_neg (fun h => hdnb h), hd,
          Bool.true_or, if_true]
        exact htail
      · simp

theorem mem_joinSep {sep : PyStr} {c : Char} :
    ∀ {l : List PyStr}, c ∈ joinSep sep l → c ∈ sep ∨ ∃ x ∈ l, c ∈ x := by
  intro l
  induction l with
  | nil => intro h; simp [joinSep] at h
  | cons x rest ih =>
    intro h
    cases rest with
    | nil =>
      simp only [joinSep] at h
      exact Or.inr ⟨x, List.mem_cons_self _ _, h⟩
    | cons y rest2 =>
      rw [joinSep] at h
      rcases List.mem_append.mp h with h2 | h2
      · rcases List.mem_append.mp h2 with h3 | h3
        · exact Or.inr ⟨x, List.mem_cons_self _ _, h3⟩
        · exact Or.inl h3
      · rcases ih h2 with h3 | ⟨z, hz, hcz⟩
        · exact Or.inl h3
        · exact Or.inr ⟨z, List.mem_cons_of_mem _ hz, hcz⟩

/-- No `'['` occurs in a comma-joined list of rendered floats. -/
theorem joinSep_renders_no_bracket {vs : List ℚ} :
    '[' ∉ joinSep (", ".data) (vs.map renderQ) := by
  intro hc
  rcases mem_joinSep hc with h | ⟨x, hx, hcx⟩
  · rw [show ((", ".data : PyStr)) = [',', ' '] from rfl] at h
    simp at h
  · obtain ⟨q, _, rfl⟩ := List.mem_map.mp hx
    rcases renderQ_chars hcx with h | h | h
    · exact absurd h (by decide)
    · exact absurd h (by decide)
    · exact absurd h (by decide)

/-- One rendered matrix line `  [v1, v2, ...],\n` contributes nothing
to the `[\d\s]+` row scan: with no values the bracket pair is empty,
otherwise the first rendered value blocks the digit run. -/
theorem rowItemsAux_float_line (vs : List ℚ) (t : PyStr) :
    rowItemsAux none
      ((("  [".data) ++ joinSep (", ".data) (vs.map renderQ) ++ ("],\n".data)) ++ t) =
      rowItemsAux none t := by
  cases vs with
  | nil =>
    show rowItemsAux none (' ' :: ' ' :: '[' :: ']' :: ',' :: '\n' :: t) = rowItemsAux none t
    simp [rowItemsAux]
  | cons q vs' =>
    obtain ⟨T, hT, hTnb⟩ :
        ∃ T, joinSep (", ".data) ((q :: vs').map renderQ) = renderQ q ++ T ∧ '[' ∉ T := by
      cases vs' with
      | nil => exact ⟨[], by simp [joinSep], by simp⟩
      | cons y ys =>
        refine ⟨(", ".data) ++ joinSep (", ".data) ((y :: ys).map renderQ), ?_, ?_⟩
        · rw [List.map_cons, List.map_cons]
          rw [show joinSep (", ".data)
              (renderQ q :: renderQ y :: List.map renderQ ys) =
            renderQ q ++ (", ".data) ++
              joinSep (", ".data) (renderQ y :: List.map renderQ ys) from rfl]
          rw [List.append_assoc]
        · intro hm
          rcases List.mem_append.mp hm with h | h
          · rw [show ((", ".data : PyStr)) = [',', ' '] from rfl] at h
            simp at h
          · exact joinSep_renders_no_bracket h
    rw [hT]
    obtain ⟨ds, b, rest, hq, hds, hb⟩ := renderQ_blocked q
    have harr : (("  [".data : PyStr)) ++ (ds ++ b :: rest ++ T) ++ ("],\n".data) ++ t =
        ' ' :: ' ' :: '[' :: (ds ++ b :: (rest ++ T ++ (("],\n".data)) ++ t)) := by
      rw [show (("  [".data : PyStr)) = [' ', ' ', '['] from rfl]
      simp [List.append_assoc]
    rw [hq, harr]
    show rowItemsAux none (' ' :: ' ' :: '[' :: (ds ++ b :: (rest ++ T ++ (("],\n".data)) ++ t))) = rowItemsAux none t
    rw [rowItemsAux]
    rw [if_neg (by decide)]
    rw [rowItemsAux]
    rw [if_neg (by decide)]
    rw [rowItemsAux]
    rw [if_pos rfl]
    have hbcond : b ≠ ']' ∧ b ≠ '[' ∧ isDigitCh b = false ∧ isPySpace b = false := by
      rcases hb with h | h <;> (rw [h]; refine ⟨by decide, by decide, by decide, by decide⟩)
    rw [rowItemsAux_abort hbcond.1 hbcond.2.1 hbcond.2.2.1 hbcond.2.2.2 ds [] _ hds]
    have hskip : '[' ∉ rest ++ T ++ (("],\n".data : PyStr)) := by
      intro hm
      rcases List.mem_append.mp hm with h | h
      · rcases List.mem_append.mp h with h2 | h2
        · have hmem : '[' ∈ renderQ q := by
            rw [hq]
            exact List.mem_append.mpr (Or.inr (List.mem_cons_of_mem _ h2))
          rcases renderQ_chars hmem with h3 | h3 | h3
          · exact absurd h3 (by decide)
          · exact absurd h3 (by decide)
          · exact absurd h3 (by decide)
        · exact hTnb h2
      · rw [show (("],\n".data : PyStr)) = [']', ',', '\n'] from rfl] at h
        simp at h
    rw [show rest ++ T ++ (("],\n".data : PyStr)) ++ t =
      (rest ++ T ++ (("],\n".data : PyStr))) ++ t from by simp [List.append_assoc]]
    exact rowItemsAux_skip t hskip

theorem rowItemsAux_float_lines (vls : List (List ℚ)) (t : PyStr) :
    rowItemsAux none
      ((vls.map fun vs =>
        ("  [".data) ++ joinSep (", ".data) (vs.map renderQ) ++ ("],\n".data)).flatten ++ t) =
      rowItemsAux none t := by
  induction vls with
  | nil => simp
  | cons vs rest ih =>
    rw [List.map_cons, List.flatten_cons, List.append_assoc]
    rw [rowItemsAux_float_line]
    exact ih

theorem write_opl_2d_float_array_shape (name : PyStr)
    (data : List (PyStr × List (PyStr × ℚ))) (rows cols : List PyStr) :
    write_opl_2d_float_array name data rows cols =
      name ++ (' ' :: '=' :: ' ' :: '[' :: '\n' :: []) ++
        (((matrixValues data rows cols).map fun vs =>
            ("  [".data) ++ joinSep (", ".data) (vs.map renderQ) ++ ("],\n".data)).flatten ++
          (']' :: ';' :: '\n' :: '\n' :: [])) := by
  unfold write_opl_2d_float_array
  rw [show ((" = [\n".data : PyStr)) = ' ' :: '=' :: ' ' :: '[' :: '\n' :: [] from rfl]
  rw [show (("];\n\n".data : PyStr)) = ']' :: ';' :: '\n' :: '\n' :: [] from rfl]
  rw [show ((matrixValues data rows cols).map fun vs =>
      ("  [".data) ++ joinSep (", ".data) (vs.map renderQ) ++ ("],\n".data)) =
    rows.map fun r => ("  [".data) ++ joinSep (", ".data)
      (cols.map fun c => renderQ (entryVal data r c)) ++ ("],\n".data) from by
    unfold matrixValues
    simp only [List.map_map]
    refine List.map_congr_left fun a _ => ?_
    show (("  [".data : PyStr)) ++
        joinSep ((", ".data))
          (List.map renderQ (List.map (fun c => entryVal data a c) cols)) ++
        (("],\n".data)) = _
    rw [List.map_map]
    rfl]
  simp [List.append_assoc]

theorem mem_float_lines {vls : List (List ℚ)} {c : Char}
    (hc : c ∈ (vls.map fun vs =>
      ("  [".data) ++ joinSep (", ".data) (vs.map renderQ) ++ ("],\n".data)).flatten) :
    c = ' ' ∨ c = '[' ∨ c = ']' ∨ c = ',' ∨ c = '\n' ∨ ∃ q : ℚ, c ∈ renderQ q := by
  rw [List.mem_flatten] at hc
  obtain ⟨l, hl, hcl⟩ := hc
  rw [List.mem_map] at hl
  obtain ⟨vs, _, rfl⟩ := hl
  rw [show (("  [".data : PyStr)) = [' ', ' ', '['] from rfl,
    show (("],\n".data : PyStr)) = [']', ',', '\n'] from rfl] at hcl
  rcases List.mem_append.mp hcl with h | h
  · rcases List.mem_append.mp h with h2 | h2
    · simp only [List.mem_cons, List.not_mem_nil, or_false] at h2
      rcases h2 with h3 | h3 | h3
      · exact Or.inl h3
      · exact Or.inl h3
      · exact Or.inr (Or.inl h3)
    · rcases mem_joinSep h2 with h3 | ⟨x, hx, hcx⟩
      · rw [show ((", ".data : PyStr)) = [',', ' '] from rfl] at h3
        simp only [List.mem_cons, List.not_mem_nil, or_false] at h3
        rcases h3 with h4 | h4
        · exact Or.inr (Or.inr (Or.inr (Or.inl h4)))
        · exact Or.inl h4
      · obtain ⟨q, _, rfl⟩ := List.mem_map.mp hx
        exact Or.inr (Or.inr (Or.inr (Or.inr (Or.inr ⟨q, hcx⟩))))
  · simp only [List.mem_cons, List.not_mem_nil, or_false] at h
    rcases h with h3 | h3 | h3
    · exact Or.inr (Or.inr (Or.inl h3))
    · exact Or.inr (Or.inr (Or.inr (Or.inl h3)))
    · exact Or.inr (Or.inr (Or.inr (Or.inr (Or.inl h3))))

/-- Decoding any matrix written by the float encoder yields the empty
row list: the decoder's rows must be whitespace-separated digit runs,
but the encoder emits comma-separated float renderings. -/
theorem parse_write_2d_float_empty (name : PyStr)
    (data : List (PyStr × List (PyStr × ℚ))) (rows cols : List PyStr) :
    parse_opl_2d_array (write_opl_2d_float_array name data rows cols) name = some [] := by
  rw [write_opl_2d_float_array_shape]
  unfold parse_opl_2d_array
  rw [findHeader_of_headerAt (headerAt_decl name '[' _ (by decide))]
  dsimp only
  rw [show ('\n' :: (((matrixValues data rows cols).map fun vs =>
        ("  [".data) ++ joinSep (", ".data) (vs.map renderQ) ++ ("],\n".data)).flatten ++
      (']' :: ';' :: '\n' :: '\n' :: []))) =
    (('\n' :: ((matrixValues data rows cols).map fun vs =>
        ("  [".data) ++ joinSep (", ".data) (vs.map renderQ) ++ ("],\n".data)).flatten) ++
      ']' :: ';' :: '\n' :: '\n' :: []) from by simp]
  rw [findClose_append_no_semi (by decide) _ ('\n' :: '\n' :: [])
    (fun hm => by
      rcases List.mem_cons.mp hm with h | h
      · exact absurd h (by decide)
      · rcases mem_float_lines h with h2 | h2 | h2 | h2 | h2 | ⟨q, h2⟩
        · exact absurd h2 (by decide)
        · exact absurd h2 (by decide)
        · exact absurd h2 (by decide)
        · exact absurd h2 (by decide)
        · exact absurd h2 (by decide)
        · rcases renderQ_chars h2 with h3 | h3 | h3
          · exact absurd h3 (by decide)
          · exact absurd h3 (by decide)
          · exact absurd h3 (by decide))]
  dsimp only
  have hlines : rowItemsAux none
      ('\n' :: ((matrixValues data rows cols).map fun vs =>
        ("  [".data) ++ joinSep (", ".data) (vs.map renderQ) ++ ("],\n".data)).flatten) = [] := by
    rw [show ('\n' :: ((matrixValues data rows cols).map fun vs =>
          ("  [".data) ++ joinSep (", ".data) (vs.map renderQ) ++ ("],\n".data)).flatten) =
      ['\n'] ++ ((matrixValues data rows cols).map fun vs =>
          ("  [".data) ++ joinSep (", ".data) (vs.map renderQ) ++ ("],\n".data)).flatten from rfl]
    rw [rowItemsAux_skip _ (by decide)]
    rw [← List.append_nil (((matrixValues data rows cols).map fun vs =>
      ("  [".data) ++ joinSep (", ".data) (vs.map renderQ) ++ ("],\n".data)).flatten)]
    rw [rowItemsAux_float_lines]
    rfl
  rw [hlines]
  rfl

/- ## Claim C1 -/

/-- C1 counterexample: encoding a concrete Model Document and decoding
it back does not recover the dense Costs matrix: the 2-D decoder
returns `some []` (no rows) because its row pattern admits only
whitespace-separated digit runs while the encoder writes
comma-separated float renderings; the document's actual matrix is
`[[2.0, 0.0], [0.0, 0.0]]` (two rows). -/
theorem model_roundtrip_matrix_lost :
    parse_opl_2d_array
      (generate_opl_dat_file
        { cells := [("cell_0_0".data), ("cell_1_0".data)]
          actions := [("adaptation_atelerix".data), ("corridor".data)]
          species := [("atelerix".data)]
          connections := [("connected_atelerix".data)]
          costs := [(("cell_0_0".data), [(("adaptation_atelerix".data), 2)])]
          suitability := []
          neighbors := [(("cell_0_0".data), [("cell_1_0".data)]),
                        (("cell_1_0".data), [("cell_0_0".data)])]
          speciesDistances := [(("atelerix".data),
            [(("cell_0_0".data), [0]), (("cell_1_0".data), [1])])]
          area := [(("cell_0_0".data), 1), (("cell_1_0".data), 1)] } 2)
      ("Costs".data) = some [] ∧
    matrixValues [(("cell_0_0".data), [(("adaptation_atelerix".data), 2)])]
      [("cell_0_0".data), ("cell_1_0".data)]
      [("adaptation_atelerix".data), ("corridor".data)] = [[2, 0], [0, 0]] := by
  constructor
  · decide
  · decide

/-- C1 amended: per declaration, encode-then-decode recovers every
named set with the same elements in the same order (for items that are
non-empty and contain no quote or closing-brace character, as all real
identifiers are); but the dense matrices are never recovered — decoding
any encoded float matrix yields the empty row list. -/
theorem model_roundtrip_sets_not_matrices :
    (∀ (name : PyStr) (items : List PyStr),
      (∀ it ∈ items, it ≠ [] ∧ '"' ∉ it ∧ '}' ∉ it) →
      parse_opl_set (write_opl_set name items) name = some items) ∧
    (∀ (name : PyStr) (data : List (PyStr × List (PyStr × ℚ))) (rows cols : List PyStr),
      parse_opl_2d_array (write_opl_2d_float_array name data rows cols) name = some []) :=
  ⟨roundtrip_set_items, parse_write_2d_float_empty⟩

/-- Witness for C1 amended at a concrete set and matrix. -/
theorem model_roundtrip_sets_not_matrices_witness :
    parse_opl_set (write_opl_set ("Species".data) [("atelerix".data), ("martes".data)])
      ("Species".data) = some [("atelerix".data), ("martes".data)] ∧
    parse_opl_2d_array
      (write_opl_2d_float_array ("SuitabilityScores".data) [] [("cell_0_0".data)]
        [("corridor".data)]) ("SuitabilityScores".data) = some [] :=
  ⟨model_roundtrip_sets_not_matrices.1 _ _ (by decide),
   model_roundtrip_sets_not_matrices.2 _ _ _ _⟩

/- ## Claim C7 -/

/-- C7 counterexample: the supplied Costs dictionary covers no declared
set member at all, yet the encoder does not fail with
`InconsistentOrder` — it succeeds and emits a defaulted `0.0` row. -/
theorem no_inconsistent_order_failure :
    coversAllMembers [] [("cell_0_0".data)] [("adaptation_atelerix".data)] = false ∧
    write_opl_2d_float_array ("Costs".data) [] [("cell_0_0".data)]
      [("adaptation_atelerix".data)] = ("Costs = [\n  [0.0],\n];\n\n".data) := by
  constructor
  · decide
  · decide

/-- C7 amended: the encoder never fails at all.  Every missing (Cell,
Action) entry — including whole missing rows, i.e. set members not
covered by the supplied arrays — is emitted as `0.0`; there is no
`InconsistentOrder` check.  Scenario C produces exactly the rows
`[2.0, 0.0]` then `[0.0, 0.0]`. -/
theorem encoder_missing_defaults_zero :
    matrixValues [(("cell_0_0".data), [(("adaptation_atelerix".data), 2)])]
      [("cell_0_0".data), ("cell_1_0".data)]
      [("adaptation_atelerix".data), ("corridor".data)] = [[2, 0], [0, 0]] ∧
    write_opl_2d_float_array ("Costs".data)
      [(("cell_0_0".data), [(("adaptation_atelerix".data), 2)])]
      [("cell_0_0".data), ("cell_1_0".data)]
      [("adaptation_atelerix".data), ("corridor".data)] =
      ("Costs = [\n  [2.0, 0.0],\n  [0.0, 0.0],\n];\n\n".data) ∧
    (∀ (data : List (PyStr × List (PyStr × ℚ))) (r c : PyStr),
      data.lookup r = none → entryVal data r c = 0) ∧
    (∀ (data : List (PyStr × List (PyStr × ℚ))) (r c : PyStr) (rowData : List (PyStr × ℚ)),
      data.lookup r = some rowData → rowData.lookup c = none → entryVal data r c = 0) := by
  refine ⟨by decide, by decide, ?_, ?_⟩
  · intro data r c h
    simp [entryVal, h]
  · intro data r c rowData h1 h2
    simp [entryVal, h1, h2]

/-- Witness for C7 amended: defaults at concrete missing entries. -/
theorem encoder_missing_defaults_zero_witness :
    entryVal [] ("cell_0_0".data) ("corridor".data) = 0 ∧
    entryVal [(("cell_0_0".data), [])] ("cell_0_0".data) ("corridor".data) = 0 :=
  ⟨encoder_missing_defaults_zero.2.2.1 [] _ _ (by decide),
   encoder_missing_defaults_zero.2.2.2 [(("cell_0_0".data), [])] _ _ [] (by decide) (by decide)⟩

/- ## Claim C2 -/

theorem lexKeyRel_total (l : List Nat) : IsTotal Nat (lexKeyRel l) :=
  ⟨fun i j => by unfold lexKeyRel; omega⟩

theorem lexKeyRel_trans (l : List Nat) : IsTrans Nat (lexKeyRel l) :=
  ⟨fun a b c hab hbc => by unfold lexKeyRel at *; omega⟩

theorem keepIdx_mem {l : List Nat} {K i : Nat} (h : i ∈ keepIdx l K) : i < l.length := by
  unfold keepIdx at h
  have h2 := List.mem_of_mem_take h
  rw [List.mem_insertionSort, List.mem_range] at h2
  exact h2

theorem keepIdx_all_of_le {l : List Nat} {K : Nat} (h : l.length ≤ K) :
    ∀ i, i < l.length → i ∈ keepIdx l K := by
  intro i hi
  unfold keepIdx
  rw [List.take_of_length_le (by rw [List.length_insertionSort, List.length_range]; exact h)]
  rw [List.mem_insertionSort, List.mem_range]
  exact hi

theorem keepIdx_length {l : List Nat} {K : Nat} (h : K ≤ l.length) :
    (keepIdx l K).length = K := by
  unfold keepIdx
  rw [List.length_take, List.length_insertionSort, List.length_range]
  omega

theorem keepIdx_smallest {l : List Nat} {K : Nat} :
    ∀ i ∈ keepIdx l K, ∀ j, j < l.length → j ∉ keepIdx l K →
      l.getD i 0 < l.getD j 0 ∨ (l.getD i 0 = l.getD j 0 ∧ i < j) := by
  intro i hi j hj hjn
  haveI := lexKeyRel_total l
  haveI := lexKeyRel_trans l
  have hperm := List.perm_insertionSort (lexKeyRel l) (List.range l.length)
  have hnodup : ((List.range l.length).insertionSort (lexKeyRel l)).Nodup :=
    hperm.nodup_iff.mpr (List.nodup_range _)
  have hsorted : ((List.range l.length).insertionSort (lexKeyRel l)).Sorted (lexKeyRel l) :=
    List.sorted_insertionSort _ _
  have hj_mem : j ∈ (List.range l.length).insertionSort (lexKeyRel l) := by
    rw [List.mem_insertionSort, List.mem_range]
    exact hj
  have hj_drop : j ∈ ((List.range l.length).insertionSort (lexKeyRel l)).drop K := by
    rcases List.mem_append.mp
        (by rw [List.take_append_drop]; exact hj_mem :
          j ∈ ((List.range l.length).insertionSort (lexKeyRel l)).take K ++
            ((List.range l.length).insertionSort (lexKeyRel l)).drop K) with h | h
    · exact absurd h hjn
    · exact h
  have hpw : List.Pairwise (lexKeyRel l)
      (((List.range l.length).insertionSort (lexKeyRel l)).take K ++
        ((List.range l.length).insertionSort (lexKeyRel l)).drop K) := by
    rw [List.take_append_drop]
    exact hsorted
  have hrel := (List.pairwise_append.mp hpw).2.2 i hi j hj_drop
  have hne : i ≠ j := by
    rw [← List.take_append_drop K ((List.range l.length).insertionSort (lexKeyRel l))] at hnodup
    have hd := (List.nodup_append.mp hnodup).2.2
    exact fun he => hd hi (he ▸ hj_drop)
  unfold lexKeyRel at hrel
  omega

theorem truncatedRow_length (l : List Nat) (K M padding : Nat) :
    (truncatedRow l K M padding).length = M := by
  unfold truncatedRow
  rw [List.length_map, List.length_range]

theorem truncatedRow_getD {l : List Nat} {K M padding : Nat} {idx : Nat} (h : idx < M) :
    (truncatedRow l K M padding).getD idx 0 =
      if idx < l.length && (keepIdx l K).contains idx then l.getD idx 0 else padding := by
  unfold truncatedRow
  rw [List.getD_eq_getElem?_getD, List.getElem?_map, List.getElem?_range h]
  simp

theorem inner_fold_le_init (cells : List (PyStr × List Nat)) :
    ∀ m : Nat, m ≤ cells.foldl (fun m2 cl => max m2 cl.2.length) m := by
  induction cells with
  | nil => intro m; exact le_refl m
  | cons cl rest ih =>
    intro m
    exact le_trans (le_max_left m cl.2.length) (ih _)

theorem inner_fold_ge_mem {cells : List (PyStr × List Nat)} {c : PyStr} {l : List Nat}
    (h : (c, l) ∈ cells) :
    ∀ m : Nat, l.length ≤ cells.foldl (fun m2 cl => max m2 cl.2.length) m := by
  induction cells with
  | nil => exact absurd h (List.not_mem_nil _)
  | cons cl rest ih =>
    intro m
    rcases List.mem_cons.mp h with he | hm
    · rw [← he]
      exact le_trans (le_max_right m l.length) (inner_fold_le_init rest _)
    · exact ih hm _

theorem le_foldl_outer (data : List (PyStr × List (PyStr × List Nat))) :
    ∀ m : Nat, m ≤ data.foldl (fun m sd => sd.2.foldl (fun m2 cl => max m2 cl.2.length) m) m := by
  induction data with
  | nil => intro m; exact le_refl m
  | cons sd rest ih =>
    intro m
    exact le_trans (inner_fold_le_init sd.2 m) (ih _)

theorem globalMaxLen_ge {data : List (PyStr × List (PyStr × List Nat))}
    {s c : PyStr} {cells : List (PyStr × List Nat)} {l : List Nat}
    (h1 : (s, cells) ∈ data) (h2 : (c, l) ∈ cells) :
    l.length ≤ globalMaxLen data := by
  unfold globalMaxLen
  have main : ∀ (d : List (PyStr × List (PyStr × List Nat))), (s, cells) ∈ d →
      ∀ m : Nat, l.length ≤ d.foldl (fun m sd => sd.2.foldl (fun m2 cl => max m2 cl.2.length) m) m := by
    intro d
    induction d with
    | nil => intro h _; exact absurd h (List.not_mem_nil _)
    | cons sd rest ih =>
      intro hmem m
      rcases List.mem_cons.mp hmem with he | hm
      · show l.length ≤ rest.foldl _ (sd.2.foldl _ m)
        have hsd : l.length ≤ sd.2.foldl (fun m2 cl => max m2 cl.2.length) m := by
          rw [← he]
          exact inner_fold_ge_mem h2 m
        exact le_trans hsd (le_foldl_outer rest _)
      · exact ih hm _
  exact main data h1 0

/-- C2 counterexample: with two cells of origin counts 1 and 3 and
truncation width K = 3, the global maximum length is 3, so the cell
with origin count 1 ≤ K still receives two padding sentinels in its
emitted row — contradicting "for origin count ≤ K no sentinel value
appears". -/
theorem truncation_sentinel_below_k :
    write_species_distances_rows
      [(['a'], [(['c', '1'], [5]), (['c', '2'], [1, 2, 3])])] 3 1000000 =
      [(['a'], [(['c', '1'], [5, 1000000, 1000000]), (['c', '2'], [1, 2, 3])])] ∧
    ([5] : List Nat).length ≤ 3 ∧
    (1000000 : Nat) ∈ ([5, 1000000, 1000000] : List Nat) := by
  refine ⟨?_, ?_, ?_⟩
  · decide
  · decide
  · decide

/-- C2 amended: each emitted row has the global maximum length (across
all species and cells).  Positions whose index was kept — the
`min K (origin count)` stably smallest distances, ties favouring the
lower origin index — carry the true computed distance; every other
position, including every position at or beyond the cell's own origin
count, carries the padding sentinel.  Hence for origin count ≥ K
exactly K positions carry true distances and the rest are sentinel,
while for origin count ≤ K all original positions carry true distances
but sentinel values still appear whenever the global maximum length
exceeds the cell's origin count. -/
theorem write_species_distances_truncation
    (data : List (PyStr × List (PyStr × List Nat))) (K padding : Nat)
    (s c : PyStr) (cells : List (PyStr × List Nat)) (l : List Nat)
    (h1 : (s, cells) ∈ data) (h2 : (c, l) ∈ cells) :
    (∃ cells', (s, cells') ∈ write_species_distances_rows data K padding ∧
      (c, truncatedRow l K (globalMaxLen data) padding) ∈ cells') ∧
    (truncatedRow l K (globalMaxLen data) padding).length = globalMaxLen data ∧
    l.length ≤ globalMaxLen data ∧
    (∀ idx, idx < globalMaxLen data → idx ∈ keepIdx l K →
      (truncatedRow l K (globalMaxLen data) padding).getD idx 0 = l.getD idx 0) ∧
    (∀ idx, idx < globalMaxLen data → idx ∉ keepIdx l K →
      (truncatedRow l K (globalMaxLen data) padding).getD idx 0 = padding) ∧
    (K ≤ l.length → (keepIdx l K).length = K ∧
      ∀ i ∈ keepIdx l K, ∀ j, j < l.length → j ∉ keepIdx l K →
        l.getD i 0 < l.getD j 0 ∨ (l.getD i 0 = l.getD j 0 ∧ i < j)) ∧
    (l.length ≤ K → ∀ i, i < l.length → i ∈ keepIdx l K) := by
  refine ⟨?_, truncatedRow_length l K _ padding, globalMaxLen_ge h1 h2, ?_, ?_, ?_, ?_⟩
  · unfold write_species_distances_rows
    refine ⟨cells.map fun cl => (cl.1, truncatedRow cl.2 K (globalMaxLen data) padding), ?_, ?_⟩
    · exact List.mem_map.mpr ⟨(s, cells), h1, rfl⟩
    · exact List.mem_map.mpr ⟨(c, l), h2, rfl⟩
  · intro idx hidx hkeep
    rw [truncatedRow_getD hidx]
    rw [if_pos]
    rw [Bool.and_eq_true]
    constructor
    · exact decide_eq_true (keepIdx_mem hkeep)
    · exact List.elem_iff.mpr hkeep
  · intro idx hidx hkeep
    rw [truncatedRow_getD hidx]
    rw [if_neg]
    intro hcond
    rw [Bool.and_eq_true] at hcond
    exact hkeep (List.elem_iff.mp hcond.2)
  · intro hK
    exact ⟨keepIdx_length hK, keepIdx_smallest⟩
  · intro hK
    exact keepIdx_all_of_le hK

/-- Witness for C2 amended at the concrete two-cell input. -/
theorem write_species_distances_truncation_witness :
    (truncatedRow [1, 2, 3] 2 3 1000000).getD 0 0 = 1 ∧
    (truncatedRow [1, 2, 3] 2 3 1000000).getD 2 0 = 1000000 ∧
    (keepIdx [1, 2, 3] 2).length = 2 :=
  ⟨(write_species_distances_truncation
      [(['a'], [(['c'], [1, 2, 3])])] 2 1000000 ['a'] ['c']
      [(['c'], [1, 2, 3])] [1, 2, 3] (by decide) (by decide)).2.2.2.1 0 (by decide) (by decide),
   (write_species_distances_truncation
      [(['a'], [(['c'], [1, 2, 3])])] 2 1000000 ['a'] ['c']
      [(['c'], [1, 2, 3])] [1, 2, 3] (by decide) (by decide)).2.2.2.2.1 2 (by decide) (by decide),
   ((write_species_distances_truncation
      [(['a'], [(['c'], [1, 2, 3])])] 2 1000000 ['a'] ['c']
      [(['c'], [1, 2, 3])] [1, 2, 3] (by decide) (by decide)).2.2.2.2.2.1 (by decide)).1⟩

/- ## Claim C4 -/

theorem newCells_sub : ∀ (nbrs visited : List PyStr) (w : PyStr),
    w ∈ newCells nbrs visited → w ∈ nbrs ∧ w ∉ visited := by
  intro nbrs
  induction nbrs with
  | nil => intro visited w h; simp [newCells] at h
  | cons x xs ih =>
    intro visited w h
    rw [newCells] at h
    split at h
    · next hc =>
      obtain ⟨h1, h2⟩ := ih visited w h
      exact ⟨List.mem_cons_of_mem _ h1, h2⟩
    · next hc =>
      rcases List.mem_cons.mp h with he | hm
      · refine ⟨he ▸ List.mem_cons_self x xs, ?_⟩
        rw [he]
        intro hmem
        exact hc (List.elem_iff.mpr hmem)
      · obtain ⟨h1, h2⟩ := ih (x :: visited) w hm
        exact ⟨List.mem_cons_of_mem _ h1, fun hmem => h2 (List.mem_cons_of_mem _ hmem)⟩

theorem newCells_nodup : ∀ (nbrs visited : List PyStr), (newCells nbrs visited).Nodup := by
  intro nbrs
  induction nbrs with
  | nil => intro visited; simp [newCells]
  | cons x xs ih =>
    intro visited
    rw [newCells]
    split
    · exact ih visited
    · refine List.Nodup.cons ?_ (ih (x :: visited))
      intro hmem
      exact (newCells_sub _ _ _ hmem).2 (List.mem_cons_self _ _)

theorem newCells_cover : ∀ (nbrs visited : List PyStr) (b : PyStr),
    b ∈ nbrs → b ∈ newCells nbrs visited ∨ b ∈ visited := by
  intro nbrs
  induction nbrs with
  | nil => intro visited b h; simp at h
  | cons x xs ih =>
    intro visited b h
    rw [newCells]
    split
    · next hc =>
      rcases List.mem_cons.mp h with he | hm
      · exact Or.inr (he ▸ List.elem_iff.mp hc)
      · exact ih visited b hm
    · next hc =>
      rcases List.mem_cons.mp h with he | hm
      · exact Or.inl (he ▸ List.mem_cons_self _ _)
      · rcases ih (x :: visited) b hm with h2 | h2
        · exact Or.inl (List.mem_cons_of_mem _ h2)
        · rcases List.mem_cons.mp h2 with h3 | h3
          · exact Or.inl (h3 ▸ List.mem_cons_self _ _)
          · exact Or.inr h3

theorem enqueueNbrs_eq (d : Nat) : ∀ (nbrs : List PyStr) (queue : List (PyStr × Nat))
    (visited : List PyStr),
    enqueueNbrs d nbrs queue visited =
      (queue ++ (newCells nbrs visited).map fun w => (w, d),
       (newCells nbrs visited).reverse ++ visited) := by
  intro nbrs
  induction nbrs with
  | nil => intro queue visited; simp [enqueueNbrs, newCells]
  | cons x xs ih =>
    intro queue visited
    rw [enqueueNbrs, newCells]
    split
    · exact ih queue visited
    · rw [ih (queue ++ [(x, d)]) (x :: visited)]
      simp

theorem bfsInv_step (adj : PyStr → List PyStr) (P : PyStr → Prop)
    (hPadj : ∀ x y, y ∈ adj x → P y)
    (hsym : ∀ x y, P x → y ∈ adj x → x ∈ adj y)
    (u : PyStr) (d : Nat) (rest : List (PyStr × Nat)) (visited : List PyStr)
    (dist : List (PyStr × Nat))
    (inv : BfsInv adj P ((u, d) :: rest) visited dist) :
    BfsInv adj P (rest ++ (newCells (adj u) visited).map fun w => (w, d + 1))
      ((newCells (adj u) visited).reverse ++ visited) ((u, d) :: dist) := by
  have hu_vis : u ∈ visited :=
    (inv.visIff u).mpr (Or.inl ⟨d, List.mem_cons_self _ _⟩)
  have hPu : P u := inv.pVis u hu_vis
  have hrest_bound : ∀ p ∈ rest, d ≤ p.2 ∧ p.2 ≤ d + 1 := by
    intro p hp
    have := (List.pairwise_cons.mp inv.pairQ).1 p hp
    exact ⟨this.1, this.2⟩
  have hu_not_rest : u ∉ rest.map Prod.fst := by
    have := inv.nodupQ
    rw [List.map_cons] at this
    exact (List.nodup_cons.mp this).1
  refine ⟨?_, ?_, ?_, ?_, ?_, ?_, ?_⟩
  · -- pairQ
    rw [List.pairwise_append]
    refine ⟨(List.pairwise_cons.mp inv.pairQ).2, ?_, ?_⟩
    · rw [List.pairwise_map]
      exact (newCells_nodup _ _).imp fun _ => ⟨le_refl _, by omega⟩
    · intro p hp q hq
      obtain ⟨w', _, heq⟩ := List.mem_map.mp hq
      have hb := hrest_bound p hp
      rw [← heq]
      exact ⟨by omega, by omega⟩
  · -- visIff
    intro w
    rw [List.mem_append, List.mem_reverse]
    constructor
    · rintro (hN | hv)
      · exact Or.inl ⟨d + 1, List.mem_append_right _ (List.mem_map.mpr ⟨w, hN, rfl⟩)⟩
      · rcases (inv.visIff w).mp hv with ⟨e, he⟩ | ⟨dd, hdd⟩
        · rcases List.mem_cons.mp he with heq | hr
          · have hw : w = u := congrArg Prod.fst heq
            exact Or.inr ⟨d, by rw [hw]; exact List.mem_cons_self _ _⟩
          · exact Or.inl ⟨e, List.mem_append_left _ hr⟩
        · exact Or.inr ⟨dd, List.mem_cons_of_mem _ hdd⟩
    · rintro (⟨e, he⟩ | ⟨dd, hdd⟩)
      · rcases List.mem_append.mp he with hr | hm
        · exact Or.inr ((inv.visIff w).mpr (Or.inl ⟨e, List.mem_cons_of_mem _ hr⟩))
        · obtain ⟨w', hw', heq⟩ := List.mem_map.mp hm
          have : w' = w := congrArg Prod.fst heq
          exact Or.inl (this ▸ hw')
      · rcases List.mem_cons.mp hdd with heq | hdist
        · have hw : w = u := congrArg Prod.fst heq
          exact Or.inr (hw ▸ hu_vis)
        · exact Or.inr ((inv.visIff w).mpr (Or.inr ⟨dd, hdist⟩))
  · -- nodupQ
    rw [List.map_append, List.map_map]
    have hids : ((newCells (adj u) visited).map (Prod.fst ∘ fun w => (w, d + 1))) =
        newCells (adj u) visited := by
      rw [show (Prod.fst ∘ fun w => (w, d + 1)) = id from rfl, List.map_id]
    rw [hids]
    refine List.Nodup.append ?_ (newCells_nodup _ _) ?_
    · have := inv.nodupQ
      rw [List.map_cons] at this
      exact (List.nodup_cons.mp this).2
    · intro w hw hwN
      have h1 : w ∈ visited := by
        obtain ⟨p, hp, heq⟩ := List.mem_map.mp hw
        have hpr : (w, p.2) = p := by rw [← heq]
        exact (inv.visIff w).mpr
          (Or.inl ⟨p.2, List.mem_cons_of_mem _ (by rw [hpr]; exact hp)⟩)
      exact (newCells_sub _ _ _ hwN).2 h1
  · -- disjQD
    intro w ⟨e, he⟩ ⟨dd, hdd⟩
    rcases List.mem_append.mp he with hr | hm
    · rcases List.mem_cons.mp hdd with heq | hdist
      · have hw : w = u := congrArg Prod.fst heq
        exact hu_not_rest (hw ▸ List.mem_map.mpr ⟨(w, e), hr, rfl⟩)
      · exact inv.disjQD w ⟨e, List.mem_cons_of_mem _ hr⟩ ⟨dd, hdist⟩
    · obtain ⟨w', hw', heq⟩ := List.mem_map.mp hm
      have hwN : w ∈ newCells (adj u) visited := by
        have : w' = w := congrArg Prod.fst heq
        exact this ▸ hw'
      have hnv := (newCells_sub _ _ _ hwN).2
      rcases List.mem_cons.mp hdd with heq2 | hdist
      · have hw : w = u := congrArg Prod.fst heq2
        exact hnv (hw ▸ hu_vis)
      · exact hnv ((inv.visIff w).mpr (Or.inr ⟨dd, hdist⟩))
  · -- edgeInv
    intro a da hmem b hb
    rcases List.mem_cons.mp hmem with heq | hdist
    · injection heq with h1 h2
      subst h1
      subst h2
      refine ⟨?_, ?_, ?_⟩
      · rw [List.mem_append, List.mem_reverse]
        rcases newCells_cover (adj a) visited b hb with h | h
        · exact Or.inl h
        · exact Or.inr h
      · intro db hdb
        rcases List.mem_cons.mp hdb with heq2 | hdist2
        · injection heq2 with h3 h4
          subst h4
          exact ⟨by omega, by omega⟩
        · have hbvis : b ∈ visited := (inv.visIff b).mpr (Or.inr ⟨db, hdist2⟩)
          have hub : a ∈ adj b := hsym a b hPu hb
          have := (inv.edgeInv b db hdist2 a hub).2.2 da (List.mem_cons_self _ _)
          exact ⟨by omega, by omega⟩
      · intro eb heb
        rcases List.mem_append.mp heb with hr | hm
        · exact hrest_bound (b, eb) hr
        · obtain ⟨w', hw', heq2⟩ := List.mem_map.mp hm
          injection heq2 with h3 h4
          exact ⟨by omega, by omega⟩
    · have hold := inv.edgeInv a da hdist b hb
      refine ⟨List.mem_append_right _ hold.1, ?_, ?_⟩
      · intro db hdb
        rcases List.mem_cons.mp hdb with heq2 | hdist2
        · injection heq2 with h3 h4
          subst h3
          subst h4
          have := hold.2.2 db (List.mem_cons_self _ _)
          exact ⟨by omega, by omega⟩
        · exact hold.2.1 db hdist2
      · intro eb heb
        rcases List.mem_append.mp heb with hr | hm
        · exact hold.2.2 eb (List.mem_cons_of_mem _ hr)
        · obtain ⟨w', hw', heq2⟩ := List.mem_map.mp hm
          have hw : w' = b := congrArg Prod.fst heq2
          exact absurd hold.1 (hw ▸ (newCells_sub _ _ _ hw').2)
  · -- qdLe
    intro w e he a dd hdd
    rcases List.mem_cons.mp hdd with heq | hdist
    · have hd2 : dd = d := congrArg Prod.snd heq
      rcases List.mem_append.mp he with hr | hm
      · have := (hrest_bound (w, e) hr).1
        omega
      · obtain ⟨w', _, heq2⟩ := List.mem_map.mp hm
        have he2 : d + 1 = e := congrArg Prod.snd heq2
        omega
    · rcases List.mem_append.mp he with hr | hm
      · exact inv.qdLe w e (List.mem_cons_of_mem _ hr) a dd hdist
      · obtain ⟨w', _, heq2⟩ := List.mem_map.mp hm
        have he2 : d + 1 = e := congrArg Prod.snd heq2
        have := inv.qdLe u d (List.mem_cons_self _ _) a dd hdist
        omega
  · -- pVis
    intro w hw
    rw [List.mem_append, List.mem_reverse] at hw
    rcases hw with hN | hv
    · exact hPadj u w (newCells_sub _ _ _ hN).1
    · exact inv.pVis w hv

theorem bfsAux_inv (adj : PyStr → List PyStr) (P : PyStr → Prop)
    (hPadj : ∀ x y, y ∈ adj x → P y)
    (hsym : ∀ x y, P x → y ∈ adj x → x ∈ adj y) :
    ∀ (fuel : Nat) (queue : List (PyStr × Nat)) (visited : List PyStr)
      (dist : List (PyStr × Nat)),
      BfsInv adj P queue visited dist →
      ∃ queue' visited', BfsInv adj P queue' visited'
        (bfsAux adj fuel queue visited dist) := by
  intro fuel
  induction fuel with
  | zero => intro queue visited dist inv; exact ⟨queue, visited, inv⟩
  | succ fuel ih =>
    intro queue visited dist inv
    match queue with
    | [] => exact ⟨[], visited, by rw [bfsAux]; exact inv⟩
    | (u, d) :: rest =>
      rw [bfsAux]
      rw [enqueueNbrs_eq]
      exact ih _ _ _ (bfsInv_step adj P hPadj hsym u d rest visited dist inv)

theorem lookup_cons_ne {l : List (PyStr × Nat)} {u k : PyStr} {d : Nat}
    (h : u ≠ k) : ((u, d) :: l).lookup k = l.lookup k := by
  simp only [List.lookup]
  rw [show (k == u) = false from beq_eq_false_iff_ne.mpr (Ne.symm h)]

theorem bfsAux_source_zero (adj : PyStr → List PyStr) (source : PyStr) :
    ∀ (fuel : Nat) (queue : List (PyStr × Nat)) (visited : List PyStr)
      (dist : List (PyStr × Nat)),
      source ∈ visited →
      (∀ e, (source, e) ∉ queue) →
      dist.lookup source = some 0 →
      (bfsAux adj fuel queue visited dist).lookup source = some 0 := by
  intro fuel
  induction fuel with
  | zero => intro queue visited dist _ _ h3; exact h3
  | succ fuel ih =>
    intro queue visited dist h1 h2 h3
    match queue with
    | [] => rw [bfsAux]; exact h3
    | (u, d) :: rest =>
      rw [bfsAux, enqueueNbrs_eq]
      have hne : u ≠ source := by
        intro he
        exact h2 d (he ▸ List.mem_cons_self _ _)
      refine ih _ _ _ ?_ ?_ ?_
      · exact List.mem_append_right _ h1
      · intro e he
        rcases List.mem_append.mp he with hr | hm
        · exact h2 e (List.mem_cons_of_mem _ hr)
        · obtain ⟨w', hw', heq⟩ := List.mem_map.mp hm
          have hws : w' = source := congrArg Prod.fst heq
          exact (newCells_sub _ _ _ hw').2 (hws ▸ h1)
      · rw [lookup_cons_ne hne]
        exact h3

theorem natVal_append_digit (xs : List Char) (c : Char) :
    natVal (xs ++ [c]) = natVal xs * 10 + (c.toNat - 48) := by
  unfold natVal
  rw [List.foldl_append]
  rfl

theorem natVal_natCharsAux : ∀ (fuel n : Nat), n < fuel →
    natVal (natCharsAux fuel n) = n := by
  intro fuel
  induction fuel with
  | zero => intro n h; omega
  | succ fuel ih =>
    intro n h
    rw [natCharsAux]
    split
    · next h10 =>
      interval_cases n <;> decide
    · next h10 =>
      rw [natVal_append_digit, ih (n / 10) (by omega)]
      have hm : n % 10 < 10 := Nat.mod_lt _ (by omega)
      have hdig : (digitCh (n % 10)).toNat - 48 = n % 10 := by
        set m := n % 10 with hmm
        interval_cases m <;> decide
      rw [hdig]
      omega

theorem natVal_natChars (n : Nat) : natVal (natChars n) = n :=
  natVal_natCharsAux (n + 1) n (by omega)

theorem natChars_head_digit (n : Nat) :
    ∃ c cs, natChars n = c :: cs ∧ isDigitCh c = true := by
  cases hnc : natChars n with
  | nil => exact absurd hnc (natChars_ne_nil n)
  | cons c cs =>
    exact ⟨c, cs, rfl, natChars_digits (hnc ▸ List.mem_cons_self c cs)⟩

theorem pyInt_natChars (n : Nat) : pyInt (natChars n) = some (n : Int) := by
  obtain ⟨c, cs, hnc, hdig⟩ := natChars_head_digit n
  have hcne : c ≠ '-' := by
    intro he
    rw [he] at hdig
    exact absurd hdig (by decide)
  rw [hnc]
  rw [pyInt.eq_def]
  split
  · next heq =>
    injection heq with h1 h2
    exact absurd h1 fun hh => hcne hh
  · rw [if_pos]
    · rw [show natVal (c :: cs) = natVal (natChars n) from by rw [hnc]]
      rw [natVal_natChars]
    · rw [Bool.and_eq_true]
      constructor
      · simp
      · rw [show (c :: cs) = natChars n from hnc.symm]
        rw [List.all_eq_true]
        intro x hx
        exact natChars_digits hx

theorem pyInt_intChars (i : Int) : pyInt (intChars i) = some i := by
  unfold intChars
  split
  · next hneg =>
    rw [pyInt.eq_def]
    split
    · next heq =>
      injection heq with h1 h2
      rw [if_pos]
      · rw [← h2]
        rw [natVal_natChars]
        congr 1
        omega
      · rw [Bool.and_eq_true]
        refine ⟨?_, ?_⟩
        · rw [← h2]
          simp [natChars_ne_nil i.natAbs]
        · rw [← h2]
          rw [List.all_eq_true]
          intro x hx
          exact natChars_digits hx
    · next heq =>
      exact absurd rfl (heq _)
  · next hneg =>
    rw [pyInt_natChars]
    congr 1
    omega

theorem splitUnderscore_no_underscore : ∀ (xs : List Char), '_' ∉ xs →
    splitUnderscore xs = [xs] := by
  intro xs
  induction xs with
  | nil => intro _; rfl
  | cons c rest ih =>
    intro h
    have hc : c ≠ '_' := fun he => h (he ▸ List.mem_cons_self _ _)
    rw [splitUnderscore]
    rw [if_neg (fun he => hc he)]
    rw [ih fun hm => h (List.mem_cons_of_mem _ hm)]

theorem splitUnderscore_append : ∀ (xs rest : List Char), '_' ∉ xs →
    splitUnderscore (xs ++ '_' :: rest) = xs :: splitUnderscore rest := by
  intro xs
  induction xs with
  | nil =>
    intro rest _
    show splitUnderscore ('_' :: rest) = [] :: splitUnderscore rest
    rw [splitUnderscore]
    rw [if_pos rfl]
  | cons c cs ih =>
    intro rest h
    have hc : c ≠ '_' := fun he => h (he ▸ List.mem_cons_self _ _)
    show splitUnderscore (c :: (cs ++ '_' :: rest)) = (c :: cs) :: splitUnderscore rest
    rw [splitUnderscore]
    rw [if_neg (fun he => hc he)]
    rw [ih rest fun hm => h (List.mem_cons_of_mem _ hm)]

theorem intChars_no_underscore (i : Int) : '_' ∉ intChars i := by
  intro h
  unfold intChars at h
  split at h
  · rcases List.mem_cons.mp h with he | hm
    · exact absurd he (by decide)
    · exact absurd (natChars_digits hm) (by decide)
  · exact absurd (natChars_digits h) (by decide)

theorem parse_format_roundtrip (c r : Int) :
    parseGridId (formatGridId c r) = some (c, r) := by
  unfold parseGridId formatGridId
  rw [show (['c', 'e', 'l', 'l', '_'] ++ intChars c ++ '_' :: intChars r) =
    (['c', 'e', 'l', 'l'] ++ '_' :: (intChars c ++ '_' :: intChars r)) from by simp]
  rw [splitUnderscore_append _ _ (by decide)]
  rw [splitUnderscore_append _ _ (intChars_no_underscore c)]
  rw [splitUnderscore_no_underscore _ (intChars_no_underscore r)]
  show (match pyInt (intChars c), pyInt (intChars r) with
    | some cc, some rr => some (cc, rr)
    | _, _ => none) = some (c, r)
  rw [pyInt_intChars, pyInt_intChars]

theorem adjOf_mem {ids : List PyStr} {x y : PyStr} (h : y ∈ adjOf ids x) :
    y ∈ ids ∧ ∃ cc rr, y = formatGridId cc rr := by
  unfold adjOf get_neighbors at h
  cases hp : parseGridId x with
  | none => rw [hp] at h; simp at h
  | some p =>
    obtain ⟨cx, rx⟩ := p
    rw [hp] at h
    simp only [Option.getD_some] at h
    rw [neighborLoop_eq_filter] at h
    rw [List.mem_filter] at h
    obtain ⟨hmap, hcont⟩ := h
    obtain ⟨q, hq, rfl⟩ := List.mem_map.mp hmap
    exact ⟨List.elem_iff.mp hcont, q.2, q.1, rfl⟩

set_option maxHeartbeats 1000000 in
theorem adjOf_symm (ids : List PyStr)
    (hids : ∀ s ∈ ids, ∃ cc rr, s = formatGridId cc rr) :
    ∀ x y, x ∈ ids → y ∈ adjOf ids x → x ∈ adjOf ids y := by
  intro x y hx hy
  obtain ⟨cx, rx, hxf⟩ := hids x hx
  have hpx : parseGridId x = some (cx, rx) := by rw [hxf]; exact parse_format_roundtrip _ _
  unfold adjOf get_neighbors at hy
  rw [hpx] at hy
  simp only [Option.getD_some] at hy
  rw [neighborLoop_eq_filter, List.mem_filter] at hy
  obtain ⟨hmap, hcont⟩ := hy
  obtain ⟨q, hq, hfq⟩ := List.mem_map.mp hmap
  obtain ⟨rq, cq⟩ := q
  have hpy : parseGridId y = some (cq, rq) := by rw [← hfq]; exact parse_format_roundtrip _ _
  unfold adjOf get_neighbors
  rw [hpy]
  simp only [Option.getD_some]
  rw [neighborLoop_eq_filter, List.mem_filter]
  refine ⟨?_, List.elem_iff.mpr hx⟩
  refine List.mem_map.mpr ⟨(rx, cx), ?_, by rw [← hxf]⟩
  simp only [mooreCoords, List.mem_cons, List.not_mem_nil, or_false, Prod.mk.injEq] at hq ⊢
  omega

/-- C4: for every BFS run of the distance engine over the
`get_neighbors` adjacency of a set of well-formed cell identifiers
containing the origin: the origin's own recorded distance is 0;
every recorded distance is a non-negative integer; and for every
adjacency edge (u, v) with both endpoints reached, the recorded
distances differ by at most 1. -/
theorem bfs_distance_properties (ids : List PyStr) (source : PyStr) (fuel : Nat)
    (hids : ∀ s ∈ ids, ∃ cc rr, s = formatGridId cc rr)
    (hsrc : source ∈ ids) :
    (1 ≤ fuel → (bfs (adjOf ids) source fuel).lookup source = some 0) ∧
    (∀ w dw, (bfs (adjOf ids) source fuel).lookup w = some dw → 0 ≤ (dw : Int)) ∧
    (∀ u v du dv, v ∈ adjOf ids u →
      (bfs (adjOf ids) source fuel).lookup u = some du →
      (bfs (adjOf ids) source fuel).lookup v = some dv →
      du ≤ dv + 1 ∧ dv ≤ du + 1) := by
  have hPadj : ∀ x y, y ∈ adjOf ids x → y ∈ ids := fun x y h => (adjOf_mem h).1
  have hsym := adjOf_symm ids hids
  refine ⟨?_, ?_, ?_⟩
  · intro hfuel
    match fuel, hfuel with
    | f + 1, _ =>
      unfold bfs
      rw [bfsAux, enqueueNbrs_eq]
      apply bfsAux_source_zero
      · exact List.mem_append_right _ (List.mem_cons_self _ _)
      · intro e he
        rcases List.mem_append.mp he with hr | hm
        · simp at hr
        · obtain ⟨w', hw', heq⟩ := List.mem_map.mp hm
          have hws : w' = source := congrArg Prod.fst heq
          exact (newCells_sub _ _ _ hw').2 (hws ▸ List.mem_cons_self _ _)
      · simp [List.lookup]
  · intro w dw _
    exact Int.ofNat_nonneg dw
  · intro u v du dv hedge hu hv
    have hinit : BfsInv (adjOf ids) (fun s => s ∈ ids) [(source, 0)] [source] [] := by
      refine ⟨List.pairwise_singleton _ _, ?_, by simp, ?_, ?_, ?_, ?_⟩
      · intro w
        simp [List.mem_singleton, Prod.ext_iff]
      · intro w h1 h2
        obtain ⟨dd, hdd⟩ := h2
        simp at hdd
      · intro a da hmem
        simp at hmem
      · intro w e _ a dd hdd
        simp at hdd
      · intro w hw
        rw [List.mem_singleton] at hw
        exact hw ▸ hsrc
    obtain ⟨q', v', hinv⟩ := bfsAux_inv (adjOf ids) (fun s => s ∈ ids) hPadj hsym
      fuel [(source, 0)] [source] [] hinit
    unfold bfs at hu hv
    exact ((hinv.edgeInv u du (lookup_mem hu) v hedge).2.1 dv (lookup_mem hv)).symm

/-- Witness for C4 on a concrete two-cell grid with origin `cell_1_1`. -/
theorem bfs_distance_properties_witness :
    (bfs (adjOf (([((0 : Int), (0 : Int)), (1, 1)]).map fun p => formatGridId p.1 p.2))
      (formatGridId 1 1) 3).lookup (formatGridId 1 1) = some 0 :=
  (bfs_distance_properties _ (formatGridId 1 1) 3
    (fun s hs => by
      rw [List.mem_map] at hs
      obtain ⟨p, _, rfl⟩ := hs
      exact ⟨p.1, p.2, rfl⟩)
    (by decide)).1 (by decide)
